import Mathlib

/-!
Shallow embedding of the travelio calendar scheduler
(`src/frontend/src/App.tsx`): time helpers, the event-drag controller,
selection-drag normalization, the calendar day builder, the segment
projector and the column layout engine, together with theorems that
check the specification's claims against the embedded code.

Modelling conventions:
* JS `number` minute values are embedded as `Int`.  The pixel-to-minute
  conversion `(offsetY / CALENDAR_SLOT_HEIGHT_PX) * 60` happens on
  floating-point values in the source; it is abstracted here as an
  arbitrary `Int` argument that is fed, exactly as in the source, to
  `roundToSelectionStep` and `clampMinutes` (every snapped value the UI
  can produce is a multiple of 30 and is realised exactly by the model).
* `Math.floor (x / k)` for positive `k` is `Int` division (`/`, Euclidean
  division, which floors for positive divisors); `x % k` for the
  non-negative `x` arising here agrees with `Int.emod`.
* JS strings are Lean `String`s; `String.prototype.trim` is modelled on
  the character list (`trimChars`) to keep every definition executable.
* The DOM / React plumbing (refs, global listeners, Firestore) is outside
  the embedding: React state setters become pure state-returning
  functions, and the Firestore `updateDoc` payload issued by
  `finalizeEventDrag` is reified as an `EventUpdateRequest` value.
-/

namespace Travelio

/-- `TOTAL_DAY_MINUTES` from the source (24 * 60). -/
def TOTAL_DAY_MINUTES : Int := 24 * 60

/-- `MIN_EVENT_DURATION` from the source. -/
def MIN_EVENT_DURATION : Int := 30

/-- `SELECTION_STEP_MINUTES` from the source. -/
def SELECTION_STEP_MINUTES : Int := 30

/-- `clampMinutes`: clamps a minute value into `[0, 1440]`
(`Math.max(0, Math.min(TOTAL_DAY_MINUTES, value))`). -/
def clampMinutes (value : Int) : Int :=
  max 0 (min TOTAL_DAY_MINUTES value)

/-- `roundToSelectionStep`: `Math.round(value / 30) * 30`.
`Math.round x = Math.floor (x + 1/2)`, so on minute values this is
`⌊(value + 15) / 30⌋ * 30`; `/` is `Int` division, which floors for the
positive divisor `30`. -/
def roundToSelectionStep (value : Int) : Int :=
  (value + 15) / 30 * 30

/-- `padTimeSegment`: `String(value).padStart(2, "0")`. -/
def padTimeSegment (value : Int) : String :=
  let s := toString value
  if s.length < 2 then "0" ++ s else s

/-- `formatMinutesToTime`: clamp, then `HH:MM` via
`Math.floor(safe / 60)` and `safe % 60` (the clamped value is
non-negative, so JS remainder agrees with `Int.emod`). -/
def formatMinutesToTime (minutes : Int) : String :=
  let safeMinutes := clampMinutes minutes
  padTimeSegment (safeMinutes / 60) ++ ":" ++ padTimeSegment (safeMinutes % 60)

/-- `formatMinutesToIsoLocal`: `` `${date}T${formatMinutesToTime minutes}` ``. -/
def formatMinutesToIsoLocal (date : String) (minutes : Int) : String :=
  date ++ ("T" ++ formatMinutesToTime minutes)

/-- `ItineraryEvent` from the source (timestamps are local-naive
`YYYY-MM-DDTHH:MM` strings). -/
structure ItineraryEvent where
  id : String
  title : String
  description : Option String
  startDateTime : String
  endDateTime : String
deriving DecidableEq

/-- `CalendarSelection` from the source. -/
structure CalendarSelection where
  startDate : String
  startMinutes : Int
  endDate : String
  endMinutes : Int
deriving DecidableEq

/-- `CalendarSegment` from the source. -/
structure CalendarSegment where
  event : ItineraryEvent
  segmentStartMinutes : Int
  segmentEndMinutes : Int
  isStartSegment : Bool
  isEndSegment : Bool
deriving DecidableEq

/-- `CalendarLayoutSegment`: a `CalendarSegment` augmented with
`columnIndex`/`columnCount` (the source flattens the record; the
embedding keeps the segment in the `seg` field). -/
structure CalendarLayoutSegment where
  seg : CalendarSegment
  columnIndex : Nat
  columnCount : Nat
deriving DecidableEq

/-- The three drag modes of the existing-event drag controller. -/
inductive DragMode where
  | move
  | resizeStart
  | resizeEnd
deriving DecidableEq

/-- The event-drag working state stored by `setEventDragState`. -/
structure EventDragState where
  eventId : String
  date : String
  mode : DragMode
  originalStart : Int
  originalEnd : Int
  previewStart : Int
  previewEnd : Int
  anchorOffset : Option Int
deriving DecidableEq

/-- `startEventDrag` (state-construction part).  `pointerRaw` models the
pointer's `(offsetY / CALENDAR_SLOT_HEIGHT_PX) * 60` value when
`getPointerClientY` returned a coordinate, `none` when it returned
`null`; the UI guards (`button !== 0`, missing container ref) abort
before any state is produced and are outside this embedding. -/
def startEventDrag (eventId date : String) (mode : DragMode)
    (segmentStartMinutes segmentEndMinutes : Int) (pointerRaw : Option Int) :
    EventDragState :=
  let previewStart := clampMinutes segmentStartMinutes
  let previewEnd :=
    clampMinutes (max segmentEndMinutes (previewStart + MIN_EVENT_DURATION))
  let anchorOffset : Option Int :=
    match mode, pointerRaw with
    | DragMode.move, some raw =>
        some (clampMinutes (roundToSelectionStep raw) - previewStart)
    | _, _ => none
  { eventId := eventId, date := date, mode := mode,
    originalStart := previewStart, originalEnd := previewEnd,
    previewStart := previewStart, previewEnd := previewEnd,
    anchorOffset := anchorOffset }

/-- `updateEventDragPreview`: one pointer-move update.  `pointerRaw`
models `(offsetY / CALENDAR_SLOT_HEIGHT_PX) * 60`.  The `move` branch
keeps the source's two (unreachable) re-clamp `if`s verbatim. -/
def updateEventDragPreview (previous : EventDragState) (pointerRaw : Int) :
    EventDragState :=
  let pointerMinutes := clampMinutes (roundToSelectionStep pointerRaw)
  match previous.mode with
  | DragMode.move =>
      let duration := previous.originalEnd - previous.originalStart
      let anchor := previous.anchorOffset.getD 0
      let start0 := clampMinutes (pointerMinutes - anchor)
      let end0 := clampMinutes (start0 + duration)
      let start1 := if end0 > TOTAL_DAY_MINUTES then
          clampMinutes (TOTAL_DAY_MINUTES - duration) else start0
      let end1 := if end0 > TOTAL_DAY_MINUTES then TOTAL_DAY_MINUTES else end0
      let start2 := if start1 < 0 then 0 else start1
      let end2 := if start1 < 0 then clampMinutes ((0 : Int) + duration) else end1
      let end3 := if end2 - start2 < MIN_EVENT_DURATION then
          clampMinutes (start2 + MIN_EVENT_DURATION) else end2
      { previous with previewStart := start2, previewEnd := end3 }
  | DragMode.resizeStart =>
      let capped := min pointerMinutes (previous.previewEnd - MIN_EVENT_DURATION)
      { previous with
        previewStart :=
          clampMinutes (min capped (previous.previewEnd - MIN_EVENT_DURATION)) }
  | DragMode.resizeEnd =>
      let capped := max pointerMinutes (previous.previewStart + MIN_EVENT_DURATION)
      { previous with
        previewEnd := clampMinutes (min capped TOTAL_DAY_MINUTES) }

/-- The Firestore `updateDoc` payload issued by `finalizeEventDrag`. -/
structure EventUpdateRequest where
  eventId : String
  startDateTime : String
  endDateTime : String
deriving DecidableEq

/-- `finalizeEventDrag`: always clears the drag state (first component);
issues an update request (second component) only on commit, with a live
drag state and itinerary id, and only when the preview differs from the
original bounds. -/
def finalizeEventDrag (commit : Bool) (state? : Option EventDragState)
    (itineraryId? : Option String) :
    Option EventDragState × Option EventUpdateRequest :=
  match commit, state?, itineraryId? with
  | true, some current, some _ =>
      if current.previewStart = current.originalStart ∧
          current.previewEnd = current.originalEnd then
        (none, none)
      else
        (none, some
          { eventId := current.eventId,
            startDateTime := formatMinutesToIsoLocal current.date current.previewStart,
            endDateTime := formatMinutesToIsoLocal current.date
              (min current.previewEnd (TOTAL_DAY_MINUTES - 1)) })
  | _, _, _ => (none, none)

/-- The event-composer draft produced by `openEventComposer` for a
committed selection (`setEventDraft` update; title/description keep their
previous values). -/
structure ItineraryEventDraft where
  title : String
  description : String
  startDate : String
  endDate : String
  startTime : String
  endTime : String
deriving DecidableEq

/-- `openEventComposer`'s draft prefill: end minutes of `1440` (or more)
are prefilled from `TOTAL_DAY_MINUTES - 1`. -/
def composerDraft (range : CalendarSelection)
    (previousTitle previousDescription : String) : ItineraryEventDraft :=
  let safeEndMinutes :=
    if range.endMinutes ≥ TOTAL_DAY_MINUTES then TOTAL_DAY_MINUTES - 1
    else range.endMinutes
  { title := previousTitle, description := previousDescription,
    startDate := range.startDate, endDate := range.endDate,
    startTime := formatMinutesToTime range.startMinutes,
    endTime := formatMinutesToTime safeEndMinutes }

/-- `dayIndexMap`: the source builds a `Map` from day iso string to index
with `calendarDays.forEach((day, index) => map.set(day.iso, index))`, so a
duplicated iso keeps its **last** index; this recursive lookup returns the
last occurrence accordingly. -/
def dayIndex? : List String → String → Option Nat
  | [], _ => none
  | x :: rest, d =>
      match dayIndex? rest d with
      | some i => some (i + 1)
      | none => if x = d then some 0 else none

/-- `toAbsoluteMinutes`: `dayIndexMap.get(date)` and
`index * TOTAL_DAY_MINUTES + clampMinutes(minutes)`; `null` becomes
`none`. -/
def toAbsoluteMinutes (days : List String) (date : String) (minutes : Int) :
    Option Int :=
  match dayIndex? days date with
  | none => none
  | some index => some ((index : Int) * TOTAL_DAY_MINUTES + clampMinutes minutes)

/-- `normalizeSelection`, parameterised by the current `calendarDays` iso
list.  Array indexing `calendarDays[i]?.iso ?? fallback` becomes
`(days[i.toNat]?).getD fallback` (the computed indices are provably
non-negative); `Math.floor (x / 1440)` is `Int` division. -/
def normalizeSelection (days : List String) (anchorDate : String)
    (anchorMinutes : Int) (targetDate : String) (targetMinutes : Int) :
    CalendarSelection :=
  if days.length = 0 then
    { startDate := anchorDate, startMinutes := clampMinutes anchorMinutes,
      endDate := targetDate, endMinutes := clampMinutes targetMinutes }
  else
    let totalCalendarMinutes : Int := (days.length : Int) * TOTAL_DAY_MINUTES
    let anchorIndex : Nat := (dayIndex? days anchorDate).getD 0
    let targetIndex : Nat := (dayIndex? days targetDate).getD anchorIndex
    let anchorAbs : Int :=
      (anchorIndex : Int) * TOTAL_DAY_MINUTES + clampMinutes anchorMinutes
    let targetAbs : Int :=
      (targetIndex : Int) * TOTAL_DAY_MINUTES + clampMinutes targetMinutes
    let startAbs0 := min anchorAbs targetAbs
    let endAbs0 := max anchorAbs targetAbs
    let maxAbs := max (totalCalendarMinutes - MIN_EVENT_DURATION) MIN_EVENT_DURATION
    let startAbs := max 0 (min startAbs0 maxAbs)
    let endAbs :=
      max (startAbs + MIN_EVENT_DURATION) (min endAbs0 totalCalendarMinutes)
    let lastIndex : Int := max ((days.length : Int) - 1) 0
    let startDayIndex : Int := min (startAbs / TOTAL_DAY_MINUTES) lastIndex
    let endDayIndex : Int := min ((endAbs - 1) / TOTAL_DAY_MINUTES) lastIndex
    let normalizedStartMinutes :=
      clampMinutes (startAbs - startDayIndex * TOTAL_DAY_MINUTES)
    let normalizedEndMinutes0 := endAbs - endDayIndex * TOTAL_DAY_MINUTES
    let normalizedEndMinutes :=
      if normalizedEndMinutes0 = 0 then TOTAL_DAY_MINUTES else normalizedEndMinutes0
    { startDate := (days[startDayIndex.toNat]?).getD anchorDate,
      startMinutes := normalizedStartMinutes,
      endDate := (days[endDayIndex.toNat]?).getD targetDate,
      endMinutes := clampMinutes normalizedEndMinutes }

/-- `String.prototype.trim`, modelled on the character list. -/
def trimChars (l : List Char) : List Char :=
  ((l.dropWhile Char.isWhitespace).reverse.dropWhile Char.isWhitespace).reverse

/-- Numeric value of a decimal digit character. -/
def digitVal (c : Char) : Nat :=
  c.toNat - 48

/-- The `/^\d{4}-\d{2}-\d{2}$/` test of `normalizeDateInput`. -/
def dateShape : List Char → Bool
  | [y1, y2, y3, y4, s1, m1, m2, s2, d1, d2] =>
      y1.isDigit && y2.isDigit && y3.isDigit && y4.isDigit && s1 == '-' &&
      m1.isDigit && m2.isDigit && s2 == '-' && d1.isDigit && d2.isDigit
  | _ => false

/-- `normalizeDateInput`: reject empty/whitespace-only input, trim, and
require the exact `YYYY-MM-DD` shape (JS `!value` on a string is the
empty-string test). -/
def normalizeDateInput (value : String) : Option String :=
  if value = "" then none
  else
    let trimmed := String.mk (trimChars value.data)
    if trimmed = "" then none
    else if dateShape trimmed.data then some trimmed else none

/-- A calendar date.  The source's `CalendarDay` additionally carries
display-only fields (`weekdayLabel`/`dateLabel` via `Intl`, `isToday`
against the machine's current date); those are environment-dependent
presentation data and a `CalendarDay` is represented here by its date. -/
structure SimpleDate where
  year : Nat
  month : Nat
  day : Nat
deriving DecidableEq

/-- Gregorian leap-year rule (the rule implemented by the JS `Date`
rollover used via `cursor.setDate(cursor.getDate() + 1)`). -/
def isLeapYear (y : Nat) : Bool :=
  (y % 4 == 0 && !(y % 100 == 0)) || y % 400 == 0

/-- Days in a month of the proleptic Gregorian calendar. -/
def daysInMonth (y m : Nat) : Nat :=
  match m with
  | 1 => 31
  | 2 => if isLeapYear y then 29 else 28
  | 3 => 31
  | 4 => 30
  | 5 => 31
  | 6 => 30
  | 7 => 31
  | 8 => 31
  | 9 => 30
  | 10 => 31
  | 11 => 30
  | 12 => 31
  | _ => 0

/-- Days in a year. -/
def daysInYear (y : Nat) : Nat :=
  if isLeapYear y then 366 else 365

/-- Total days of months `1..m` of year `y`. -/
def monthsTotal (y : Nat) : Nat → Nat
  | 0 => 0
  | m + 1 => monthsTotal y m + daysInMonth y (m + 1)

/-- Days in all years before year `y`. -/
def daysBeforeYear : Nat → Nat
  | 0 => 0
  | y + 1 => daysBeforeYear y + daysInYear y

/-- Linear day index of a date: the time-value order of the JS `Date`
objects compared by the calendar-day loop. -/
def dayNumber (d : SimpleDate) : Nat :=
  daysBeforeYear d.year + monthsTotal d.year (d.month - 1) + d.day

/-- An actual calendar date — exactly the `YYYY-MM-DD` strings for which
`new Date(s + "T00:00:00")` is not `NaN`. -/
def ValidDate (d : SimpleDate) : Prop :=
  1 ≤ d.month ∧ d.month ≤ 12 ∧ 1 ≤ d.day ∧ d.day ≤ daysInMonth d.year d.month

instance (d : SimpleDate) : Decidable (ValidDate d) := by
  unfold ValidDate
  infer_instance

/-- `cursor.setDate(cursor.getDate() + 1)`: advance one calendar day. -/
def nextDay (d : SimpleDate) : SimpleDate :=
  if d.day < daysInMonth d.year d.month then ⟨d.year, d.month, d.day + 1⟩
  else if d.month < 12 then ⟨d.year, d.month + 1, 1⟩
  else ⟨d.year + 1, 1, 1⟩

/-- Digits of a normalized `YYYY-MM-DD` string as a date record. -/
def dateFromIso (s : String) : Option SimpleDate :=
  match s.data with
  | [y1, y2, y3, y4, _, m1, m2, _, d1, d2] =>
      some
        { year := ((digitVal y1 * 10 + digitVal y2) * 10 + digitVal y3) * 10 +
            digitVal y4,
          month := digitVal m1 * 10 + digitVal m2,
          day := digitVal d1 * 10 + digitVal d2 }
  | _ => none

/-- `new Date(s + "T00:00:00")` plus the `Number.isNaN(getTime())`
check: a shaped string parses iff it denotes an actual calendar date. -/
def parseCalendarDate (s : String) : Option SimpleDate :=
  match dateFromIso s with
  | some d => if ValidDate d then some d else none
  | none => none

/-- The `for (cursor = startDate; cursor <= endDate; cursor.setDate(...))`
loop of `buildCalendarDays`.  The explicit fuel
`dayNumber endDate + 1 - dayNumber cursor` is exactly the number of
iterations the source loop performs (for valid dates `nextDay` advances
`dayNumber` by one, which is proved below). -/
def buildCalendarDaysGo (endDate : SimpleDate) : Nat → SimpleDate → List SimpleDate
  | 0, _ => []
  | fuel + 1, cursor =>
      if dayNumber cursor ≤ dayNumber endDate then
        cursor :: buildCalendarDaysGo endDate fuel (nextDay cursor)
      else []

/-- `buildCalendarDays`: empty when either trip date is missing,
unparseable, or start is after end; otherwise one entry per calendar day
from start to end inclusive. -/
def buildCalendarDays (startInput endInput : Option String) : List SimpleDate :=
  match startInput, endInput with
  | some s, some e =>
      match normalizeDateInput s, normalizeDateInput e with
      | some ns, some ne =>
          match parseCalendarDate ns, parseCalendarDate ne with
          | some ds, some de =>
              if dayNumber de < dayNumber ds then []
              else buildCalendarDaysGo de (dayNumber de + 1 - dayNumber ds) ds
          | _, _ => []
      | _, _ => []
  | _, _ => []

/-- The result of `parseIsoLocalDateTime`. -/
structure ParsedDateTime where
  date : String
  hours : Nat
  minutes : Nat
deriving DecidableEq

/-- `parseIsoLocalDateTime`: trim, match
`/^(\d{4}-\d{2}-\d{2})T(\d{2}):(\d{2})$/`, and require in-range
hours/minutes (the digit shape already makes them non-negative
integers). -/
def parseIsoLocalDateTime (value : String) : Option ParsedDateTime :=
  let trimmed := String.mk (trimChars value.data)
  match trimmed.data with
  | [y1, y2, y3, y4, s1, m1, m2, s2, d1, d2, tc, hh1, hh2, cl, mm1, mm2] =>
      if y1.isDigit && y2.isDigit && y3.isDigit && y4.isDigit && s1 == '-' &&
          m1.isDigit && m2.isDigit && s2 == '-' && d1.isDigit && d2.isDigit &&
          tc == 'T' && hh1.isDigit && hh2.isDigit && cl == ':' &&
          mm1.isDigit && mm2.isDigit then
        let hours := digitVal hh1 * 10 + digitVal hh2
        let minutes := digitVal mm1 * 10 + digitVal mm2
        if hours ≤ 23 ∧ minutes ≤ 59 then
          some { date := String.mk [y1, y2, y3, y4, s1, m1, m2, s2, d1, d2],
                 hours := hours, minutes := minutes }
        else none
      else none
  | _ => none

/-- The body of the `events.map` callback of `daySegments`: the
per-(event, day) projection, before the positivity filter. -/
def projectEventOnDayRaw (days : List String) (dayIso : String)
    (entry : ItineraryEvent) : Option CalendarSegment :=
  match parseIsoLocalDateTime entry.startDateTime,
      parseIsoLocalDateTime entry.endDateTime with
  | some parsedStart, some parsedEnd =>
      match toAbsoluteMinutes days parsedStart.date
            ((parsedStart.hours : Int) * 60 + (parsedStart.minutes : Int)),
          toAbsoluteMinutes days parsedEnd.date
            ((parsedEnd.hours : Int) * 60 + (parsedEnd.minutes : Int)),
          toAbsoluteMinutes days dayIso 0,
          toAbsoluteMinutes days dayIso TOTAL_DAY_MINUTES with
      | some eventStartAbs, some eventEndAbs, some dayStartAbs, some dayEndAbs =>
          if eventEndAbs ≤ dayStartAbs ∨ eventStartAbs ≥ dayEndAbs then none
          else
            some { event := entry,
                   segmentStartMinutes :=
                     clampMinutes (max eventStartAbs dayStartAbs - dayStartAbs),
                   segmentEndMinutes :=
                     clampMinutes (min eventEndAbs dayEndAbs - dayStartAbs),
                   isStartSegment := decide (eventStartAbs ≥ dayStartAbs),
                   isEndSegment := decide (eventEndAbs ≤ dayEndAbs) }
      | _, _, _, _ => none
  | _, _ => none

/-- The per-(event, day) projection including the
`segmentEndMinutes > segmentStartMinutes` filter of `daySegments`. -/
def projectEventOnDay (days : List String) (dayIso : String)
    (entry : ItineraryEvent) : Option CalendarSegment :=
  match projectEventOnDayRaw days dayIso entry with
  | some seg =>
      if seg.segmentEndMinutes > seg.segmentStartMinutes then some seg else none
  | none => none

/-- `daySegments` for one day: map, filter, and the stable
ascending-by-start sort. -/
def daySegments (days : List String) (dayIso : String)
    (events : List ItineraryEvent) : List CalendarSegment :=
  (events.filterMap (projectEventOnDay days dayIso)).mergeSort
    (fun a b => a.segmentStartMinutes ≤ b.segmentStartMinutes)

/-- The Segment Projector as worded by the spec (for comparison with
`projectEventOnDay`): emit one segment for the (event, day) pair exactly
when both endpoints parse, both endpoints and the day map to visible
days, and the event's absolute span intersected with the day's
`[dayStart, dayStart + 1440)` window is non-empty; the segment carries
that intersection translated to the day's local 0–1440 frame. -/
def projectEventOnDaySpec (days : List String) (dayIso : String)
    (entry : ItineraryEvent) : Option CalendarSegment :=
  match parseIsoLocalDateTime entry.startDateTime,
      parseIsoLocalDateTime entry.endDateTime, dayIndex? days dayIso with
  | some ps, some pe, some di =>
      match dayIndex? days ps.date, dayIndex? days pe.date with
      | some si, some ei =>
          let eventStartAbs : Int :=
            (si : Int) * 1440 + ((ps.hours : Int) * 60 + (ps.minutes : Int))
          let eventEndAbs : Int :=
            (ei : Int) * 1440 + ((pe.hours : Int) * 60 + (pe.minutes : Int))
          let dayStartAbs : Int := (di : Int) * 1440
          if max eventStartAbs dayStartAbs < min eventEndAbs (dayStartAbs + 1440) then
            some { event := entry,
                   segmentStartMinutes := max eventStartAbs dayStartAbs - dayStartAbs,
                   segmentEndMinutes :=
                     min eventEndAbs (dayStartAbs + 1440) - dayStartAbs,
                   isStartSegment := decide (dayStartAbs ≤ eventStartAbs),
                   isEndSegment := decide (eventEndAbs ≤ dayStartAbs + 1440) }
          else none
      | _, _ => none
  | _, _, _ => none

/-- The invariant maintained by the event-drag controller on reachable
states: preview bounds stay inside the day, never invert, and keep the
30-minute minimum except when the preview is pinned against the bottom
of the day (`previewStart > 1410`), where only `1440 - previewStart`
minutes remain available. -/
def DragPreviewInv (st : EventDragState) : Prop :=
  0 ≤ st.originalStart ∧ st.originalStart ≤ st.originalEnd ∧
  st.originalEnd ≤ TOTAL_DAY_MINUTES ∧
  0 ≤ st.previewStart ∧ st.previewStart ≤ st.previewEnd ∧
  st.previewEnd ≤ TOTAL_DAY_MINUTES ∧
  min (st.previewStart + MIN_EVENT_DURATION) TOTAL_DAY_MINUTES ≤ st.previewEnd


/-- `WorkingSegment`: a laid-out segment with the `groupId` bookkeeping
(the source tracks group membership through `groupMeta.members`; the
embedding tags each working segment with its group instead). -/
structure WorkingSegment where
  seg : CalendarSegment
  columnIndex : Nat
  columnCount : Nat
  groupId : Nat
deriving DecidableEq

/-- The mutable locals of `layoutSegmentsWithColumns`, bundled as a fold
state: `laidOut`, `active`, `freeColumns` (a stack: push on release, pop
on assign), `nextColumnIndex`, the current group id and the per-group
`maxColumns` table (`groupMeta`). -/
structure LayoutState where
  laidOut : List WorkingSegment
  active : List WorkingSegment
  freeColumns : List Nat
  nextColumnIndex : Nat
  currentGroupId : Nat
  groupMax : List (Nat × Nat)
deriving DecidableEq

/-- `releaseFinished`: walk `active` from its last index down, removing
every segment whose end is `≤ startMinutes` and pushing its column onto
the free stack (so within one call the earliest-inserted released
segment's column ends up on top). -/
def releaseFinished (startMinutes : Int) :
    List WorkingSegment → List Nat → List WorkingSegment × List Nat
  | [], free => ([], free)
  | s :: rest, free =>
      let r := releaseFinished startMinutes rest free
      if s.seg.segmentEndMinutes ≤ startMinutes then (r.1, r.2 ++ [s.columnIndex])
      else (s :: r.1, r.2)

/-- `groupMeta` update: create the entry with `maxColumns = 0` if absent,
then raise it to `columnIndex + 1` when larger. -/
def bumpGroupMax (g v : Nat) : List (Nat × Nat) → List (Nat × Nat)
  | [] => [(g, v)]
  | (k, m) :: rest =>
      if k = g then (k, max m v) :: rest else (k, m) :: bumpGroupMax g v rest

/-- `groupMeta.get`. -/
def lookupGroupMax (g : Nat) : List (Nat × Nat) → Option Nat
  | [] => none
  | (k, m) :: rest => if k = g then some m else lookupGroupMax g rest

/-- One iteration of the `segments.forEach` body: release finished
segments, reset pool/counter and open a new group when nothing stays
active, then assign the popped free column (stack top) or a fresh
`nextColumnIndex++`. -/
def layoutStep (st : LayoutState) (segment : CalendarSegment) : LayoutState :=
  let rel := releaseFinished segment.segmentStartMinutes st.active st.freeColumns
  let free1 := if rel.1 = [] then [] else rel.2
  let next1 := if rel.1 = [] then 0 else st.nextColumnIndex
  let gid := if rel.1 = [] then st.currentGroupId + 1 else st.currentGroupId
  match free1.getLast? with
  | some c =>
      let ws : WorkingSegment :=
        { seg := segment, columnIndex := c, columnCount := 1, groupId := gid }
      { laidOut := st.laidOut ++ [ws], active := rel.1 ++ [ws],
        freeColumns := free1.dropLast, nextColumnIndex := next1,
        currentGroupId := gid, groupMax := bumpGroupMax gid (c + 1) st.groupMax }
  | none =>
      let ws : WorkingSegment :=
        { seg := segment, columnIndex := next1, columnCount := 1, groupId := gid }
      { laidOut := st.laidOut ++ [ws], active := rel.1 ++ [ws],
        freeColumns := free1, nextColumnIndex := next1 + 1,
        currentGroupId := gid, groupMax := bumpGroupMax gid (next1 + 1) st.groupMax }

/-- The initial fold state. -/
def initLayoutState : LayoutState :=
  { laidOut := [], active := [], freeColumns := [], nextColumnIndex := 0,
    currentGroupId := 0, groupMax := [] }

/-- `layoutSegmentsWithColumns`: fold the per-segment step over the input
and then set every member's `columnCount` to its group's `maxColumns`
(the source's final `groupMeta.forEach`; the early return for an empty
input falls out of the fold). -/
def layoutSegmentsWithColumns (segments : List CalendarSegment) :
    List CalendarLayoutSegment :=
  let final := segments.foldl layoutStep initLayoutState
  final.laidOut.map (fun ws =>
    { seg := ws.seg, columnIndex := ws.columnIndex,
      columnCount := (lookupGroupMax ws.groupId final.groupMax).getD 0 })

/-- Two segments' `[start, end)` intervals overlap. -/
def OverlapSeg (a b : CalendarSegment) : Prop :=
  max a.segmentStartMinutes b.segmentStartMinutes <
    min a.segmentEndMinutes b.segmentEndMinutes

instance (a b : CalendarSegment) : Decidable (OverlapSeg a b) := by
  unfold OverlapSeg
  infer_instance

/-- Temporal connectedness: the reflexive-transitive closure of overlap
among the members of a segment list. -/
def SegConnected (segs : List CalendarSegment) (a b : CalendarSegment) : Prop :=
  Relation.ReflTransGen (fun u v => u ∈ segs ∧ v ∈ segs ∧ OverlapSeg u v) a b

/-- The invariant carried through the layout fold: `p` is the processed
prefix and `st` the fold state. -/
structure LayoutInv (p : List CalendarSegment) (st : LayoutState) : Prop where
  seg_eq : st.laidOut.map (fun ws => ws.seg) = p
  active_spec : ∀ lastS, p.getLast? = some lastS →
    st.active = st.laidOut.filter
      (fun ws => decide (lastS.segmentStartMinutes < ws.seg.segmentEndMinutes))
  empty_case : p = [] → st = initLayoutState
  active_cols_nodup : (st.active.map (fun ws => ws.columnIndex)).Nodup
  free_nodup : st.freeColumns.Nodup
  free_not_active : ∀ c ∈ st.freeColumns,
    c ∉ st.active.map (fun ws => ws.columnIndex)
  active_lt_next : ∀ ws ∈ st.active, ws.columnIndex < st.nextColumnIndex
  free_lt_next : ∀ c ∈ st.freeColumns, c < st.nextColumnIndex
  active_gid : ∀ ws ∈ st.active, ws.groupId = st.currentGroupId
  laid_gid_le : ∀ ws ∈ st.laidOut, ws.groupId ≤ st.currentGroupId
  pairwise_cols : st.laidOut.Pairwise
    (fun x y => OverlapSeg x.seg y.seg → x.columnIndex ≠ y.columnIndex)
  conn_of_gid : ∀ x ∈ st.laidOut, ∀ y ∈ st.laidOut,
    x.groupId = y.groupId → SegConnected p x.seg y.seg
  gid_of_overlap : ∀ x ∈ st.laidOut, ∀ y ∈ st.laidOut,
    OverlapSeg x.seg y.seg → x.groupId = y.groupId
  zero_col : ∀ x ∈ st.laidOut, ∃ y ∈ st.laidOut,
    y.groupId = x.groupId ∧ y.columnIndex = 0
  gmax_isSome : ∀ g, (lookupGroupMax g st.groupMax).isSome ↔
    ∃ ws ∈ st.laidOut, ws.groupId = g
  gmax_val : ∀ g m, lookupGroupMax g st.groupMax = some m →
    m = ((st.laidOut.filter (fun ws => ws.groupId == g)).map
      (fun ws => ws.columnIndex + 1)).foldr max 0


/-- The packing guarantee of the Column Layout Engine, as claimed: no two
overlapping segments share a column; every segment's `columnCount` is the
maximum `columnIndex + 1` over its temporally-connected group (stated as
an upper bound plus attainment); an isolated segment (one overlapping no
other entry of the list, occurring once) gets `columnCount = 1`. -/
def LayoutCorrect (segs : List CalendarSegment)
    (out : List CalendarLayoutSegment) : Prop :=
  out.Pairwise (fun x y => OverlapSeg x.seg y.seg → x.columnIndex ≠ y.columnIndex) ∧
  (∀ x ∈ out,
    (∀ y ∈ out, SegConnected segs x.seg y.seg → y.columnIndex + 1 ≤ x.columnCount) ∧
    (∃ y ∈ out, SegConnected segs x.seg y.seg ∧ x.columnCount = y.columnIndex + 1)) ∧
  (∀ x ∈ out, (∀ y ∈ segs, OverlapSeg x.seg y → y = x.seg) →
    segs.countP (fun y => decide (y = x.seg)) = 1 → x.columnCount = 1)

/-- A small concrete event used by the layout examples. -/
def demoEvent (i : String) : ItineraryEvent :=
  { id := i, title := i, description := none,
    startDateTime := "", endDateTime := "" }

/-- A concrete one-day segment with the given bounds. -/
def demoSeg (i : String) (s e : Int) : CalendarSegment :=
  { event := demoEvent i, segmentStartMinutes := s, segmentEndMinutes := e,
    isStartSegment := true, isEndSegment := true }

/-- Five sorted segments whose layout distinguishes the free-column stack
from a lowest-free-column policy. -/
def c2Segs : List CalendarSegment :=
  [demoSeg "w" 0 5, demoSeg "p1" 0 50, demoSeg "p2" 5 40,
   demoSeg "k" 5 100, demoSeg "x" 50 60]

/-- The engine state after laying out the first four of `c2Segs`. -/
def c2State : LayoutState := (c2Segs.take 4).foldl layoutStep initLayoutState

end Travelio

namespace Travelio

theorem clampMinutes_bounds (v : Int) :
    0 ≤ clampMinutes v ∧ clampMinutes v ≤ TOTAL_DAY_MINUTES := by
  simp only [clampMinutes, TOTAL_DAY_MINUTES]
  omega

theorem dragPreviewInv_start (eventId date : String) (mode : DragMode)
    (segStart segEnd : Int) (pointerRaw : Option Int) :
    DragPreviewInv (startEventDrag eventId date mode segStart segEnd pointerRaw) := by
  simp only [DragPreviewInv, startEventDrag, clampMinutes, TOTAL_DAY_MINUTES,
    MIN_EVENT_DURATION]
  omega

theorem dragPreviewInv_update (st : EventDragState) (raw : Int)
    (h : DragPreviewInv st) : DragPreviewInv (updateEventDragPreview st raw) := by
  obtain ⟨h1, h2, h3, h4, h5, h6, h7⟩ := h
  simp only [TOTAL_DAY_MINUTES, MIN_EVENT_DURATION] at h1 h2 h3 h4 h5 h6 h7
  cases hm : st.mode <;>
    simp only [DragPreviewInv, updateEventDragPreview, hm, clampMinutes,
      TOTAL_DAY_MINUTES, MIN_EVENT_DURATION] <;>
    omega

theorem dragPreviewInv_fold (st : EventDragState) (raws : List Int)
    (h : DragPreviewInv st) :
    DragPreviewInv (raws.foldl updateEventDragPreview st) := by
  induction raws generalizing st with
  | nil => exact h
  | cons r rest ih =>
      exact ih _ (dragPreviewInv_update st r h)

/-- C5 (amended): every event-drag state reachable by `startEventDrag`
followed by any sequence of pointer-move updates with arbitrary pointer
coordinates has `previewStart ≤ previewEnd`, both within `[0, 1440]`,
and `previewEnd - previewStart ≥ min 30 (1440 - previewStart)`: the
30-minute minimum is guaranteed except when the preview is pinned at the
bottom of the day (`previewStart > 1410`), where the controller can only
keep the preview inside the day. -/
theorem eventDragPreview_invariant (eventId date : String) (mode : DragMode)
    (segStart segEnd : Int) (pointerRaw : Option Int) (raws : List Int) :
    0 ≤ (raws.foldl updateEventDragPreview
        (startEventDrag eventId date mode segStart segEnd pointerRaw)).previewStart ∧
    (raws.foldl updateEventDragPreview
        (startEventDrag eventId date mode segStart segEnd pointerRaw)).previewStart ≤
      (raws.foldl updateEventDragPreview
        (startEventDrag eventId date mode segStart segEnd pointerRaw)).previewEnd ∧
    (raws.foldl updateEventDragPreview
        (startEventDrag eventId date mode segStart segEnd pointerRaw)).previewEnd ≤
      TOTAL_DAY_MINUTES ∧
    min ((raws.foldl updateEventDragPreview
        (startEventDrag eventId date mode segStart segEnd pointerRaw)).previewStart +
        MIN_EVENT_DURATION) TOTAL_DAY_MINUTES ≤
      (raws.foldl updateEventDragPreview
        (startEventDrag eventId date mode segStart segEnd pointerRaw)).previewEnd := by
  have h := dragPreviewInv_fold _ raws
    (dragPreviewInv_start eventId date mode segStart segEnd pointerRaw)
  obtain ⟨h1, h2, h3, h4, h5, h6, h7⟩ := h
  exact ⟨h4, h5, h6, h7⟩

/-- C5 (counterexample): the claim "the preview always satisfies
`previewEnd - previewStart ≥ 30`" fails on a reachable state: starting a
drag (any mode, here `move`) on the segment `[23:50, 23:59)` — produced
by the single-day event `23:50–23:59`, which is draggable — yields
preview `[1430, 1440]`, only 10 minutes long, because `clampMinutes`
caps the pushed end at `1440` without moving the start back. -/
theorem startEventDrag_duration_below_minimum :
    ((startEventDrag "e1" "2024-06-01" DragMode.move 1430 1439 none).previewEnd -
      (startEventDrag "e1" "2024-06-01" DragMode.move 1430 1439 none).previewStart)
      < MIN_EVENT_DURATION := by decide

/-- C4: evaluation of the embedded `updateEventDragPreview` at the
failing input.  A `move` drag of the event `[09:00, 10:30)` (duration
90, `anchorOffset = 0`) to pointer minute `1380` produces preview
`[23:00, 24:00)` of duration 60: the end is clamped to `1440` but the
start is not pulled back, so the duration shrinks, contradicting the
specified rigid clamp (`[22:30, 24:00)`, duration preserved).  The
source's own rigid-clamp branch `if (end > TOTAL_DAY_MINUTES)` is
unreachable because `end` was already clamped to `≤ 1440`. -/
theorem updateEventDragPreview_move_shrinks_at_day_end :
    (updateEventDragPreview
        (startEventDrag "e1" "2024-06-01" DragMode.move 540 630 (some 540))
        1380).previewStart = 1380 ∧
    (updateEventDragPreview
        (startEventDrag "e1" "2024-06-01" DragMode.move 540 630 (some 540))
        1380).previewEnd = 1440 ∧
    (startEventDrag "e1" "2024-06-01" DragMode.move 540 630 (some 540)).originalEnd -
      (startEventDrag "e1" "2024-06-01" DragMode.move 540 630
        (some 540)).originalStart = 90 ∧
    (updateEventDragPreview
        (startEventDrag "e1" "2024-06-01" DragMode.move 540 630 (some 540))
        1380).previewEnd -
      (updateEventDragPreview
        (startEventDrag "e1" "2024-06-01" DragMode.move 540 630 (some 540))
        1380).previewStart = 60 := by
  refine ⟨?_, ?_, ?_, ?_⟩ <;> decide

/-- C9: on commit with a live drag state and itinerary id,
`finalizeEventDrag` always clears the drag state, and issues an update
request if and only if the preview bounds differ from the original
bounds (when they are equal it only clears the drag state and sends
nothing). -/
theorem finalizeEventDrag_request_iff (st : EventDragState) (itin : String) :
    (finalizeEventDrag true (some st) (some itin)).1 = none ∧
    ((finalizeEventDrag true (some st) (some itin)).2.isSome ↔
      (st.previewStart ≠ st.originalStart ∨ st.previewEnd ≠ st.originalEnd)) := by
  by_cases h : st.previewStart = st.originalStart ∧ st.previewEnd = st.originalEnd
  · simp only [finalizeEventDrag, if_pos h]
    simp only [Option.isSome_none, Bool.false_eq_true, false_iff]
    tauto
  · simp only [finalizeEventDrag, if_neg h]
    simp only [Option.isSome_some, true_iff, true_and]
    tauto

/-- C10: no end time of `24:00` is ever persisted or prefilled.  A
committed drag whose `previewEnd` is `1440` (and whose preview moved) is
persisted with `endDateTime` formatted from
`min previewEnd (TOTAL_DAY_MINUTES - 1) = 1439`, i.e. `"T23:59"` on the
same day; and a committed selection whose `endMinutes ≥ 1440` prefills
the composer's end time from `1439`, i.e. `"23:59"` — one minute shorter
than the 1440-minute preview. -/
theorem dayEnd_clamped_to_2359 (st : EventDragState) (itin : String)
    (range : CalendarSelection) (title descr : String)
    (hEnd : st.previewEnd = 1440)
    (hdiff : st.previewStart ≠ st.originalStart ∨ st.previewEnd ≠ st.originalEnd)
    (hr : 1440 ≤ range.endMinutes) :
    (finalizeEventDrag true (some st) (some itin)).2 = some
      { eventId := st.eventId,
        startDateTime := formatMinutesToIsoLocal st.date st.previewStart,
        endDateTime := st.date ++ "T23:59" } ∧
    (composerDraft range title descr).endTime = "23:59" := by
  have hne : ¬ (st.previewStart = st.originalStart ∧
      st.previewEnd = st.originalEnd) := by tauto
  constructor
  · simp only [finalizeEventDrag, if_neg hne]
    have h1439 : min st.previewEnd (TOTAL_DAY_MINUTES - 1) = 1439 := by
      rw [hEnd]; decide
    rw [h1439]
    have hfmt : formatMinutesToIsoLocal st.date 1439 = st.date ++ "T23:59" := by
      have ht : formatMinutesToTime 1439 = "23:59" := by decide
      rw [formatMinutesToIsoLocal, ht]
      congr 1
    rw [hfmt]
  · have hge : range.endMinutes ≥ TOTAL_DAY_MINUTES := by
      simp only [TOTAL_DAY_MINUTES]; omega
    have hsafe : (if range.endMinutes ≥ TOTAL_DAY_MINUTES then
        TOTAL_DAY_MINUTES - 1 else range.endMinutes) = 1439 := by
      rw [if_pos hge]; decide
    simp only [composerDraft, hsafe]
    decide

theorem dayIndex?_lt_length {days : List String} {d : String} {i : Nat}
    (h : dayIndex? days d = some i) : i < days.length := by
  induction days generalizing i with
  | nil => simp [dayIndex?] at h
  | cons x rest ih =>
      simp only [dayIndex?] at h
      rcases hr : dayIndex? rest d with _ | k
      · rw [hr] at h
        by_cases hx : x = d
        · rw [if_pos hx] at h
          cases h
          simp
        · simp [hx] at h
      · rw [hr] at h
        simp only [Option.some.injEq] at h
        have := ih hr
        simp only [List.length_cons]
        omega

theorem dayIndex?_eq_none {days : List String} {d : String} (h : d ∉ days) :
    dayIndex? days d = none := by
  induction days with
  | nil => rfl
  | cons x rest ih =>
      simp only [List.mem_cons, not_or] at h
      simp only [dayIndex?, ih h.2]
      simp [Ne.symm h.1]

theorem dayIndex?_getElem {days : List String} (hnd : days.Nodup) (k : Nat)
    (hk : k < days.length) : dayIndex? days days[k] = some k := by
  induction days generalizing k with
  | nil => simp at hk
  | cons x rest ih =>
      obtain ⟨hx, hrest⟩ := List.nodup_cons.mp hnd
      cases k with
      | zero =>
          simp only [List.getElem_cons_zero, dayIndex?, dayIndex?_eq_none hx]
          simp
      | succ k =>
          have hk' : k < rest.length := by
            simpa [List.length_cons] using hk
          simp only [List.getElem_cons_succ, dayIndex?, ih hrest k hk']

theorem dayIndex?_roundtrip (days : List String) (hnd : days.Nodup)
    (x : Int) (fallback : String) (hx : 0 ≤ x)
    (hlt : x < (days.length : Int)) :
    dayIndex? days ((days[x.toNat]?).getD fallback) = some x.toNat := by
  have h1 : x.toNat < days.length := by omega
  rw [List.getElem?_eq_getElem h1, Option.getD_some]
  exact dayIndex?_getElem hnd _ h1

set_option maxHeartbeats 800000 in
theorem normalizeSelection_spec (days : List String) (anchorDate : String)
    (anchorMinutes : Int) (targetDate : String) (targetMinutes : Int)
    (hne : days ≠ []) (hnd : days.Nodup) :
    ∃ i j : Nat,
      dayIndex? days (normalizeSelection days anchorDate anchorMinutes targetDate
          targetMinutes).startDate = some i ∧
      dayIndex? days (normalizeSelection days anchorDate anchorMinutes targetDate
          targetMinutes).endDate = some j ∧
      0 ≤ (i : Int) * TOTAL_DAY_MINUTES + (normalizeSelection days anchorDate
          anchorMinutes targetDate targetMinutes).startMinutes ∧
      (i : Int) * TOTAL_DAY_MINUTES + (normalizeSelection days anchorDate
          anchorMinutes targetDate targetMinutes).startMinutes + MIN_EVENT_DURATION ≤
        (j : Int) * TOTAL_DAY_MINUTES + (normalizeSelection days anchorDate
          anchorMinutes targetDate targetMinutes).endMinutes ∧
      (j : Int) * TOTAL_DAY_MINUTES + (normalizeSelection days anchorDate
          anchorMinutes targetDate targetMinutes).endMinutes ≤
        (days.length : Int) * TOTAL_DAY_MINUTES ∧
      0 ≤ (normalizeSelection days anchorDate anchorMinutes targetDate
          targetMinutes).startMinutes ∧
      (normalizeSelection days anchorDate anchorMinutes targetDate
          targetMinutes).startMinutes < TOTAL_DAY_MINUTES ∧
      1 ≤ (normalizeSelection days anchorDate anchorMinutes targetDate
          targetMinutes).endMinutes ∧
      (normalizeSelection days anchorDate anchorMinutes targetDate
          targetMinutes).endMinutes ≤ TOTAL_DAY_MINUTES := by
  have hn0 : ¬ days.length = 0 := by
    simpa [List.length_eq_zero] using hne
  have haIdx_lt : (dayIndex? days anchorDate).getD 0 < days.length := by
    rcases ha : dayIndex? days anchorDate with _ | i
    · simpa using Nat.pos_of_ne_zero hn0
    · simpa using dayIndex?_lt_length ha
  have htIdx_lt :
      (dayIndex? days targetDate).getD ((dayIndex? days anchorDate).getD 0) <
        days.length := by
    rcases ht : dayIndex? days targetDate with _ | i
    · simpa using haIdx_lt
    · simpa using dayIndex?_lt_length ht
  simp only [normalizeSelection, if_neg hn0, clampMinutes, TOTAL_DAY_MINUTES,
    MIN_EVENT_DURATION]
  generalize hIa : (dayIndex? days anchorDate).getD 0 = aIdx at haIdx_lt htIdx_lt ⊢
  generalize hIt : (dayIndex? days targetDate).getD aIdx = tIdx at htIdx_lt ⊢
  generalize ham : max (0 : Int) (min (24 * 60) anchorMinutes) = am
  generalize htm : max (0 : Int) (min (24 * 60) targetMinutes) = tm
  generalize hAa : (aIdx : Int) * (24 * 60) + am = A
  generalize hTt : (tIdx : Int) * (24 * 60) + tm = T
  generalize hS :
    max (0 : Int) (min (min A T) (max ((days.length : Int) * (24 * 60) - 30) 30)) = S
  generalize hE :
    max (S + 30) (min (max A T) ((days.length : Int) * (24 * 60))) = E
  generalize hsI : min (S / (24 * 60)) (max ((days.length : Int) - 1) 0) = sIdx
  generalize heI : min ((E - 1) / (24 * 60)) (max ((days.length : Int) - 1) 0) = eIdx
  refine ⟨_, _, dayIndex?_roundtrip days hnd _ anchorDate ?hp1 ?hl1,
    dayIndex?_roundtrip days hnd _ targetDate ?hp2 ?hl2, ?rest⟩
  case hp1 => omega
  case hl1 => omega
  case hp2 => omega
  case hl2 => omega
  case rest => split_ifs <;> omega

/-- C3: for every anchor/cursor pair over a non-empty (duplicate-free)
day list, the selection returned by `normalizeSelection`, read back as
absolute minutes (`dayIndex × 1440 + minute-of-day`), has both endpoints
inside `[0, totalCalendarMinutes]` and satisfies
`end − start ≥ MIN_EVENT_DURATION = 30`. -/
theorem normalizeSelection_bounds (days : List String) (anchorDate : String)
    (anchorMinutes : Int) (targetDate : String) (targetMinutes : Int)
    (hne : days ≠ []) (hnd : days.Nodup) :
    ∃ i j : Nat,
      dayIndex? days (normalizeSelection days anchorDate anchorMinutes targetDate
          targetMinutes).startDate = some i ∧
      dayIndex? days (normalizeSelection days anchorDate anchorMinutes targetDate
          targetMinutes).endDate = some j ∧
      0 ≤ (i : Int) * TOTAL_DAY_MINUTES + (normalizeSelection days anchorDate
          anchorMinutes targetDate targetMinutes).startMinutes ∧
      (i : Int) * TOTAL_DAY_MINUTES + (normalizeSelection days anchorDate
          anchorMinutes targetDate targetMinutes).startMinutes ≤
        (days.length : Int) * TOTAL_DAY_MINUTES ∧
      0 ≤ (j : Int) * TOTAL_DAY_MINUTES + (normalizeSelection days anchorDate
          anchorMinutes targetDate targetMinutes).endMinutes ∧
      (j : Int) * TOTAL_DAY_MINUTES + (normalizeSelection days anchorDate
          anchorMinutes targetDate targetMinutes).endMinutes ≤
        (days.length : Int) * TOTAL_DAY_MINUTES ∧
      MIN_EVENT_DURATION ≤
        (j : Int) * TOTAL_DAY_MINUTES + (normalizeSelection days anchorDate
          anchorMinutes targetDate targetMinutes).endMinutes -
        ((i : Int) * TOTAL_DAY_MINUTES + (normalizeSelection days anchorDate
          anchorMinutes targetDate targetMinutes).startMinutes) := by
  obtain ⟨i, j, h1, h2, h3, h4, h5, h6, h7, h8, h9⟩ :=
    normalizeSelection_spec days anchorDate anchorMinutes targetDate targetMinutes
      hne hnd
  refine ⟨i, j, h1, h2, ?_, ?_, ?_, ?_, ?_⟩ <;>
    (simp only [TOTAL_DAY_MINUTES, MIN_EVENT_DURATION] at *; omega)

/-- C3 (witness): the bounds theorem applied to the concrete two-day
calendar with anchor day 1 minute 90 and cursor day 2 minute 200. -/
theorem normalizeSelection_bounds_witness :
    (["2024-06-01", "2024-06-02"] : List String) ≠ [] ∧
    (["2024-06-01", "2024-06-02"] : List String).Nodup ∧
    (∃ i j : Nat,
      dayIndex? ["2024-06-01", "2024-06-02"]
        (normalizeSelection ["2024-06-01", "2024-06-02"] "2024-06-01" 90
          "2024-06-02" 200).startDate = some i ∧
      dayIndex? ["2024-06-01", "2024-06-02"]
        (normalizeSelection ["2024-06-01", "2024-06-02"] "2024-06-01" 90
          "2024-06-02" 200).endDate = some j ∧
      0 ≤ (i : Int) * TOTAL_DAY_MINUTES +
        (normalizeSelection ["2024-06-01", "2024-06-02"] "2024-06-01" 90
          "2024-06-02" 200).startMinutes ∧
      (i : Int) * TOTAL_DAY_MINUTES +
        (normalizeSelection ["2024-06-01", "2024-06-02"] "2024-06-01" 90
          "2024-06-02" 200).startMinutes ≤
        ((["2024-06-01", "2024-06-02"] : List String).length : Int) *
          TOTAL_DAY_MINUTES ∧
      0 ≤ (j : Int) * TOTAL_DAY_MINUTES +
        (normalizeSelection ["2024-06-01", "2024-06-02"] "2024-06-01" 90
          "2024-06-02" 200).endMinutes ∧
      (j : Int) * TOTAL_DAY_MINUTES +
        (normalizeSelection ["2024-06-01", "2024-06-02"] "2024-06-01" 90
          "2024-06-02" 200).endMinutes ≤
        ((["2024-06-01", "2024-06-02"] : List String).length : Int) *
          TOTAL_DAY_MINUTES ∧
      MIN_EVENT_DURATION ≤
        (j : Int) * TOTAL_DAY_MINUTES +
          (normalizeSelection ["2024-06-01", "2024-06-02"] "2024-06-01" 90
            "2024-06-02" 200).endMinutes -
          ((i : Int) * TOTAL_DAY_MINUTES +
            (normalizeSelection ["2024-06-01", "2024-06-02"] "2024-06-01" 90
              "2024-06-02" 200).startMinutes)) :=
  ⟨by decide, by decide,
    normalizeSelection_bounds ["2024-06-01", "2024-06-02"] "2024-06-01" 90
      "2024-06-02" 200 (by decide) (by decide)⟩

/-- C6: a normalized selection's `endMinutes` is never `0` (so an end is
never expressed as minute 0 of a day after the start day), and whenever
the read-back absolute end lands exactly on a day boundary (is divisible
by 1440) the selection expresses it as `endMinutes = 1440` of the prior
day. -/
theorem normalizeSelection_day_boundary (days : List String)
    (anchorDate : String) (anchorMinutes : Int) (targetDate : String)
    (targetMinutes : Int) (hne : days ≠ []) (hnd : days.Nodup) :
    1 ≤ (normalizeSelection days anchorDate anchorMinutes targetDate
        targetMinutes).endMinutes ∧
    (normalizeSelection days anchorDate anchorMinutes targetDate
        targetMinutes).endMinutes ≤ TOTAL_DAY_MINUTES ∧
    ∀ j : Nat,
      dayIndex? days (normalizeSelection days anchorDate anchorMinutes targetDate
          targetMinutes).endDate = some j →
      ((j : Int) * TOTAL_DAY_MINUTES + (normalizeSelection days anchorDate
          anchorMinutes targetDate targetMinutes).endMinutes) %
        TOTAL_DAY_MINUTES = 0 →
      (normalizeSelection days anchorDate anchorMinutes targetDate
          targetMinutes).endMinutes = TOTAL_DAY_MINUTES := by
  obtain ⟨i, j, h1, h2, h3, h4, h5, h6, h7, h8, h9⟩ :=
    normalizeSelection_spec days anchorDate anchorMinutes targetDate targetMinutes
      hne hnd
  refine ⟨h8, h9, ?_⟩
  intro k hk hmod
  simp only [TOTAL_DAY_MINUTES] at *
  omega

/-- C6 (witness): the day-boundary theorem applied to a concrete
selection whose cursor reaches the bottom of day 1 (absolute end 1440),
whence `endMinutes = 1440` on day 1 rather than minute 0 of day 2. -/
theorem normalizeSelection_day_boundary_witness :
    1 ≤ (normalizeSelection ["2024-06-01", "2024-06-02"] "2024-06-01" 1380
        "2024-06-01" 1440).endMinutes ∧
    (normalizeSelection ["2024-06-01", "2024-06-02"] "2024-06-01" 1380
        "2024-06-01" 1440).endMinutes ≤ TOTAL_DAY_MINUTES ∧
    ∀ j : Nat,
      dayIndex? ["2024-06-01", "2024-06-02"]
        (normalizeSelection ["2024-06-01", "2024-06-02"] "2024-06-01" 1380
          "2024-06-01" 1440).endDate = some j →
      ((j : Int) * TOTAL_DAY_MINUTES +
        (normalizeSelection ["2024-06-01", "2024-06-02"] "2024-06-01" 1380
          "2024-06-01" 1440).endMinutes) % TOTAL_DAY_MINUTES = 0 →
      (normalizeSelection ["2024-06-01", "2024-06-02"] "2024-06-01" 1380
        "2024-06-01" 1440).endMinutes = TOTAL_DAY_MINUTES :=
  normalizeSelection_day_boundary ["2024-06-01", "2024-06-02"] "2024-06-01" 1380
    "2024-06-01" 1440 (by decide) (by decide)

theorem monthsTotal_succ (y m : Nat) :
    monthsTotal y (m + 1) = monthsTotal y m + daysInMonth y (m + 1) := rfl

theorem monthsTotal_twelve (y : Nat) : monthsTotal y 12 = daysInYear y := by
  cases h : isLeapYear y <;>
    simp [monthsTotal, daysInMonth, daysInYear, h]

theorem daysInMonth_pos (y m : Nat) (h1 : 1 ≤ m) (h2 : m ≤ 12) :
    1 ≤ daysInMonth y m := by
  interval_cases m <;> (simp [daysInMonth]; try split) <;> omega

theorem nextDay_valid {d : SimpleDate} (h : ValidDate d) :
    ValidDate (nextDay d) := by
  obtain ⟨h1, h2, h3, h4⟩ := h
  unfold nextDay
  split_ifs with hd hm
  · refine ⟨?_, ?_, ?_, ?_⟩ <;> dsimp only <;> omega
  · refine ⟨?_, ?_, ?_, ?_⟩ <;> dsimp only
    · omega
    · omega
    · omega
    · exact daysInMonth_pos d.year (d.month + 1) (by omega) (by omega)
  · refine ⟨?_, ?_, ?_, ?_⟩ <;> dsimp only
    · omega
    · omega
    · omega
    · show 1 ≤ daysInMonth (d.year + 1) 1
      rw [daysInMonth]
      omega

theorem dayNumber_nextDay {d : SimpleDate} (h : ValidDate d) :
    dayNumber (nextDay d) = dayNumber d + 1 := by
  obtain ⟨h1, h2, h3, h4⟩ := h
  unfold nextDay
  split_ifs with hd hm
  · simp only [dayNumber]
    omega
  · have hday : d.day = daysInMonth d.year d.month := by omega
    have hm1 : d.month - 1 + 1 = d.month := by omega
    have hstep := monthsTotal_succ d.year (d.month - 1)
    rw [hm1] at hstep
    simp only [dayNumber, Nat.add_sub_cancel]
    omega
  · have hm12 : d.month = 12 := by omega
    have hdim : daysInMonth d.year d.month = 31 := by
      rw [hm12]
      rfl
    have hday : d.day = 31 := by omega
    have e1 : daysBeforeYear (d.year + 1) =
        daysBeforeYear d.year + daysInYear d.year := rfl
    have e2 := monthsTotal_twelve d.year
    have e3 : monthsTotal d.year 12 = monthsTotal d.year 11 + 31 := rfl
    have e4 : monthsTotal (d.year + 1) (1 - 1) = 0 := rfl
    have g2 : d.month - 1 = 11 := by omega
    simp only [dayNumber, e1, e4, g2]
    omega

theorem monthsTotal_mono (y : Nat) {m n : Nat} (h : m ≤ n) :
    monthsTotal y m ≤ monthsTotal y n := by
  induction n with
  | zero => simp_all
  | succ n ih =>
      rcases Nat.lt_or_ge m (n + 1) with hlt | hge
      · have := ih (by omega)
        rw [monthsTotal_succ]
        omega
      · have : m = n + 1 := by omega
        subst this
        exact le_refl _

theorem daysBeforeYear_mono {y z : Nat} (h : y ≤ z) :
    daysBeforeYear y ≤ daysBeforeYear z := by
  induction z with
  | zero => simp_all
  | succ z ih =>
      rcases Nat.lt_or_ge y (z + 1) with hlt | hge
      · have := ih (by omega)
        have e : daysBeforeYear (z + 1) = daysBeforeYear z + daysInYear z := rfl
        omega
      · have : y = z + 1 := by omega
        subst this
        exact le_refl _

theorem dayNumber_year_bounds {d : SimpleDate} (h : ValidDate d) :
    daysBeforeYear d.year < dayNumber d ∧
    dayNumber d ≤ daysBeforeYear (d.year + 1) := by
  obtain ⟨h1, h2, h3, h4⟩ := h
  constructor
  · unfold dayNumber
    omega
  · unfold dayNumber
    have hm1 : d.month - 1 + 1 = d.month := by omega
    have hstep := monthsTotal_succ d.year (d.month - 1)
    rw [hm1] at hstep
    have e3 : monthsTotal d.year d.month ≤ monthsTotal d.year 12 :=
      monthsTotal_mono _ h2
    have e4 := monthsTotal_twelve d.year
    have e1 : daysBeforeYear (d.year + 1) =
        daysBeforeYear d.year + daysInYear d.year := rfl
    omega

theorem dayNumber_month_bounds {d : SimpleDate} (h : ValidDate d) :
    monthsTotal d.year (d.month - 1) < monthsTotal d.year (d.month - 1) + d.day ∧
    monthsTotal d.year (d.month - 1) + d.day ≤ monthsTotal d.year d.month := by
  obtain ⟨h1, h2, h3, h4⟩ := h
  have hm1 : d.month - 1 + 1 = d.month := by omega
  have hstep := monthsTotal_succ d.year (d.month - 1)
  rw [hm1] at hstep
  omega

theorem dayNumber_injective {a b : SimpleDate} (ha : ValidDate a)
    (hb : ValidDate b) (h : dayNumber a = dayNumber b) : a = b := by
  have hy : a.year = b.year := by
    by_contra hne
    have hab := dayNumber_year_bounds ha
    have hbb := dayNumber_year_bounds hb
    rcases Nat.lt_or_ge a.year b.year with hlt | hge
    · have : daysBeforeYear (a.year + 1) ≤ daysBeforeYear b.year :=
        daysBeforeYear_mono (by omega)
      omega
    · have hlt : b.year < a.year := by omega
      have : daysBeforeYear (b.year + 1) ≤ daysBeforeYear a.year :=
        daysBeforeYear_mono (by omega)
      omega
  have hm : a.month = b.month := by
    by_contra hne
    have hab := dayNumber_month_bounds ha
    have hbb := dayNumber_month_bounds hb
    unfold dayNumber at h
    rw [hy] at h
    rcases Nat.lt_or_ge a.month b.month with hlt | hge
    · have h1 : monthsTotal b.year a.month ≤ monthsTotal b.year (b.month - 1) :=
        monthsTotal_mono _ (by omega)
      rw [hy] at hab
      omega
    · have hlt : b.month < a.month := by omega
      have h1 : monthsTotal b.year b.month ≤ monthsTotal b.year (a.month - 1) :=
        monthsTotal_mono _ (by omega)
      rw [hy] at hab
      omega
  have hd : a.day = b.day := by
    unfold dayNumber at h
    rw [hy, hm] at h
    omega
  cases a
  cases b
  simp only at hy hm hd
  rw [hy, hm, hd]

theorem buildCalendarDaysGo_spec (endDate : SimpleDate)
    (he : ValidDate endDate) :
    ∀ (fuel : Nat) (c : SimpleDate), ValidDate c →
      fuel = dayNumber endDate + 1 - dayNumber c →
      dayNumber c ≤ dayNumber endDate →
      (buildCalendarDaysGo endDate fuel c).length = fuel ∧
      (buildCalendarDaysGo endDate fuel c).head? = some c ∧
      (buildCalendarDaysGo endDate fuel c).getLast? = some endDate ∧
      List.Chain' (fun x y => ValidDate y ∧ dayNumber y = dayNumber x + 1)
        (buildCalendarDaysGo endDate fuel c) ∧
      ∀ x ∈ buildCalendarDaysGo endDate fuel c, ValidDate x := by
  intro fuel
  induction fuel with
  | zero =>
      intro c hc hf hle
      omega
  | succ f ih =>
      intro c hc hf hle
      simp only [buildCalendarDaysGo, if_pos hle]
      by_cases heq : dayNumber c = dayNumber endDate
      · have hf0 : f = 0 := by omega
        subst hf0
        have hce : c = endDate := dayNumber_injective hc he heq
        subst hce
        refine ⟨rfl, rfl, rfl, ?_, ?_⟩
        · simp [buildCalendarDaysGo]
        · intro x hx
          simp only [buildCalendarDaysGo, List.mem_singleton] at hx
          rw [hx]
          exact hc
      · have hnv := nextDay_valid hc
        have hdn := dayNumber_nextDay hc
        obtain ⟨l1, l2, l3, l4, l5⟩ := ih (nextDay c) hnv (by omega) (by omega)
        have hrest : buildCalendarDaysGo endDate f (nextDay c) ≠ [] := by
          intro h0
          rw [h0] at l1
          simp at l1
          omega
        obtain ⟨a, rest, har⟩ := List.exists_cons_of_ne_nil hrest
        refine ⟨by simp [l1], rfl, ?_, ?_, ?_⟩
        · rw [har, List.getLast?_cons_cons, ← har, l3]
        · rw [List.chain'_cons']
          refine ⟨?_, l4⟩
          intro y hy
          rw [l2, Option.mem_some_iff] at hy
          rw [← hy]
          exact ⟨hnv, by omega⟩
        · intro x hx
          rcases List.mem_cons.mp hx with hx1 | hx2
          · rw [hx1]; exact hc
          · exact l5 x hx2

theorem parseCalendarDate_valid {s : String} {d : SimpleDate}
    (h : parseCalendarDate s = some d) : ValidDate d := by
  unfold parseCalendarDate at h
  split at h
  · split at h
    · cases h
      assumption
    · cases h
  · cases h

/-- C7: for every pair of parseable trip dates with `start ≤ end`,
`buildCalendarDays` returns exactly `(end − start in days) + 1` entries,
the first equal to the start date, the last equal to the end date, with
consecutive entries exactly one calendar day apart (hence in strictly
ascending order), all of them actual calendar dates. -/
theorem buildCalendarDays_spec (s e : String) (ds de : SimpleDate)
    (hs : (normalizeDateInput s).bind parseCalendarDate = some ds)
    (he : (normalizeDateInput e).bind parseCalendarDate = some de)
    (hle : dayNumber ds ≤ dayNumber de) :
    (buildCalendarDays (some s) (some e)).length =
      dayNumber de - dayNumber ds + 1 ∧
    (buildCalendarDays (some s) (some e)).head? = some ds ∧
    (buildCalendarDays (some s) (some e)).getLast? = some de ∧
    List.Chain' (fun x y => dayNumber y = dayNumber x + 1)
      (buildCalendarDays (some s) (some e)) ∧
    ∀ x ∈ buildCalendarDays (some s) (some e), ValidDate x := by
  rw [Option.bind_eq_some] at hs he
  obtain ⟨ns, hns, hps⟩ := hs
  obtain ⟨ne, hne2, hpe⟩ := he
  have hvs := parseCalendarDate_valid hps
  have hve := parseCalendarDate_valid hpe
  have heq : buildCalendarDays (some s) (some e) =
      buildCalendarDaysGo de (dayNumber de + 1 - dayNumber ds) ds := by
    simp only [buildCalendarDays, hns, hne2, hps, hpe]
    rw [if_neg (by omega)]
  obtain ⟨l1, l2, l3, l4, l5⟩ :=
    buildCalendarDaysGo_spec de hve (dayNumber de + 1 - dayNumber ds) ds hvs rfl hle
  rw [heq]
  refine ⟨by omega, l2, l3, ?_, l5⟩
  exact List.Chain'.imp (fun a b hab => hab.2) l4

/-- C7 (witness): the theorem applied at the concrete trip
`0004-02-28 .. 0004-03-02` (spanning the leap day `0004-02-29`). -/
theorem buildCalendarDays_spec_witness :
    (buildCalendarDays (some "0004-02-28") (some "0004-03-02")).length =
      dayNumber ⟨4, 3, 2⟩ - dayNumber ⟨4, 2, 28⟩ + 1 ∧
    (buildCalendarDays (some "0004-02-28") (some "0004-03-02")).head? =
      some ⟨4, 2, 28⟩ ∧
    (buildCalendarDays (some "0004-02-28") (some "0004-03-02")).getLast? =
      some ⟨4, 3, 2⟩ ∧
    List.Chain' (fun x y => dayNumber y = dayNumber x + 1)
      (buildCalendarDays (some "0004-02-28") (some "0004-03-02")) ∧
    ∀ x ∈ buildCalendarDays (some "0004-02-28") (some "0004-03-02"),
      ValidDate x :=
  buildCalendarDays_spec "0004-02-28" "0004-03-02" ⟨4, 2, 28⟩ ⟨4, 3, 2⟩
    (by decide) (by decide) (by decide)

theorem parseIsoLocalDateTime_bounds {v : String} {p : ParsedDateTime}
    (h : parseIsoLocalDateTime v = some p) : p.hours ≤ 23 ∧ p.minutes ≤ 59 := by
  unfold parseIsoLocalDateTime at h
  dsimp only at h
  split at h
  · split at h
    · split at h
      next hb =>
        cases h
        exact hb
      next => cases h
    · cases h
  · cases h

set_option maxHeartbeats 1000000 in
/-- C8: the Segment Projector's per-(event, day) behaviour coincides,
for every day list, day and event, with the spec's description: exactly
one segment is produced when both endpoints parse, both endpoints and
the day map to visible days, and the day-clipped interval is non-empty
and non-inverted, and that segment carries the intersection translated
into the day's local 0–1440 frame; in every other case (unparseable
date-time, endpoint outside the visible range, empty or inverted clip)
the event contributes nothing for that day — the total function
`projectEventOnDay` returns `none` instead of failing. -/
theorem projectEventOnDay_eq_spec (days : List String) (dayIso : String)
    (entry : ItineraryEvent) :
    projectEventOnDay days dayIso entry = projectEventOnDaySpec days dayIso entry := by
  rcases hps : parseIsoLocalDateTime entry.startDateTime with _ | ps <;>
    rcases hpe : parseIsoLocalDateTime entry.endDateTime with _ | pe <;>
    simp only [projectEventOnDay, projectEventOnDayRaw, projectEventOnDaySpec,
      toAbsoluteMinutes, hps, hpe]
  rcases hdi : dayIndex? days dayIso with _ | di <;>
    rcases hsi : dayIndex? days ps.date with _ | si <;>
    rcases hei : dayIndex? days pe.date with _ | ei <;>
    simp only [hdi, hsi, hei]
  have hbs := parseIsoLocalDateTime_bounds hps
  have hbe := parseIsoLocalDateTime_bounds hpe
  simp only [clampMinutes, TOTAL_DAY_MINUTES]
  split_ifs
  all_goals try dsimp only
  all_goals try (exfalso; omega)
  all_goals split_ifs
  all_goals try rfl
  all_goals try (exfalso; omega)
  all_goals
    simp only [Option.some.injEq, CalendarSegment.mk.injEq, eq_self_iff_true,
      true_and]
  all_goals
    refine ⟨by omega, by omega, ?_, ?_⟩ <;>
      (rw [decide_eq_decide]; constructor <;> intro <;> omega)

/-- C10 (witness): the theorem applied at a concrete committed drag and
selection that both end at minute 1440. -/
theorem dayEnd_clamped_to_2359_witness :
    (finalizeEventDrag true (some
      { eventId := "e1", date := "2024-06-01", mode := DragMode.resizeEnd,
        originalStart := 1200, originalEnd := 1320, previewStart := 1200,
        previewEnd := 1440, anchorOffset := none }) (some "trip1")).2 = some
      { eventId := "e1",
        startDateTime := formatMinutesToIsoLocal "2024-06-01" 1200,
        endDateTime := "2024-06-01" ++ "T23:59" } ∧
    (composerDraft
      { startDate := "2024-06-02", startMinutes := 600,
        endDate := "2024-06-02", endMinutes := 1440 } "t" "d").endTime = "23:59" :=
  dayEnd_clamped_to_2359
    { eventId := "e1", date := "2024-06-01", mode := DragMode.resizeEnd,
      originalStart := 1200, originalEnd := 1320, previewStart := 1200,
      previewEnd := 1440, anchorOffset := none } "trip1"
    { startDate := "2024-06-02", startMinutes := 600,
      endDate := "2024-06-02", endMinutes := 1440 } "t" "d"
    rfl (by decide) (by decide)


theorem releaseFinished_eq (m : Int) (act : List WorkingSegment)
    (free : List Nat) :
    releaseFinished m act free =
      (act.filter (fun ws => decide (m < ws.seg.segmentEndMinutes)),
       free ++ ((act.filter (fun ws => decide (ws.seg.segmentEndMinutes ≤ m))).reverse.map
         (fun ws => ws.columnIndex))) := by
  induction act with
  | nil => simp [releaseFinished]
  | cons s rest ih =>
      by_cases hs : s.seg.segmentEndMinutes ≤ m
      · have hk : ¬ (m < s.seg.segmentEndMinutes) := by omega
        simp [releaseFinished, ih, hs, hk]
      · have hk : m < s.seg.segmentEndMinutes := by omega
        simp [releaseFinished, ih, hs, hk]

theorem filter_filter_of_imp {α : Type} (l : List α) (f g : α → Bool)
    (h : ∀ x ∈ l, g x = true → f x = true) :
    (l.filter f).filter g = l.filter g := by
  induction l with
  | nil => rfl
  | cons a t ih =>
      have ht : ∀ x ∈ t, g x = true → f x = true := fun x hx => h x (by simp [hx])
      by_cases hga : g a = true
      · have hfa : f a = true := h a (by simp) hga
        simp [List.filter_cons, hga, hfa, ih ht]
      · by_cases hfa : f a = true <;>
          simp [List.filter_cons, hga, hfa, ih ht]

theorem lookupGroupMax_bump_self (g v : Nat) (gm : List (Nat × Nat)) :
    lookupGroupMax g (bumpGroupMax g v gm) =
      some (match lookupGroupMax g gm with
        | some m => max m v
        | none => v) := by
  induction gm with
  | nil => simp [bumpGroupMax, lookupGroupMax]
  | cons e rest ih =>
      obtain ⟨k, m⟩ := e
      by_cases hk : k = g
      · simp [bumpGroupMax, lookupGroupMax, hk]
      · simp [bumpGroupMax, lookupGroupMax, hk, ih]

theorem lookupGroupMax_bump_other {g g' : Nat} (hne : g' ≠ g) (v : Nat)
    (gm : List (Nat × Nat)) :
    lookupGroupMax g' (bumpGroupMax g v gm) = lookupGroupMax g' gm := by
  induction gm with
  | nil => simp [bumpGroupMax, lookupGroupMax, Ne.symm hne]
  | cons e rest ih =>
      obtain ⟨k, m⟩ := e
      by_cases hk : k = g
      · subst hk
        simp [bumpGroupMax, lookupGroupMax, Ne.symm hne]
      · by_cases hk' : k = g'
        · subst hk'
          simp [bumpGroupMax, lookupGroupMax, hk, Ne.symm hne, ih]
        · simp [bumpGroupMax, lookupGroupMax, hk, hk', ih]

theorem foldr_max_concat (l : List Nat) (a : Nat) :
    ((l ++ [a]).foldr max 0) = max (l.foldr max 0) a := by
  induction l with
  | nil => simp
  | cons b t ih =>
      simp only [List.cons_append, List.foldr_cons, ih]
      omega

theorem le_foldr_max {l : List Nat} {a : Nat} (h : a ∈ l) :
    a ≤ l.foldr max 0 := by
  induction l with
  | nil => simp at h
  | cons b t ih =>
      rcases List.mem_cons.mp h with rfl | h2
      · simp only [List.foldr_cons]
        omega
      · have := ih h2
        simp only [List.foldr_cons]
        omega

theorem foldr_max_mem {l : List Nat} (h : l ≠ []) : l.foldr max 0 ∈ l := by
  induction l with
  | nil => simp at h
  | cons b t ih =>
      rcases Decidable.em (t = []) with ht | ht
      · subst ht
        simp
      · have hm := ih ht
        simp only [List.foldr_cons]
        rcases Nat.le_total b (t.foldr max 0) with hle | hle
        · rw [max_eq_right hle]
          exact List.mem_cons_of_mem _ hm
        · rw [max_eq_left hle]
          exact List.mem_cons_self _ _

theorem getLast?_nodup_dropLast {l : List Nat} (hnd : l.Nodup) {a : Nat}
    (h : l.getLast? = some a) : a ∉ l.dropLast := by
  induction l with
  | nil => simp at h
  | cons b t ih =>
      cases t with
      | nil =>
          simp at h
          simp [h]
      | cons c t2 =>
          rw [List.getLast?_cons_cons] at h
          obtain ⟨hb, hnd2⟩ := List.nodup_cons.mp hnd
          have hmem := List.mem_of_mem_getLast? h
          intro hcon
          rw [List.dropLast_cons_of_ne_nil (by simp)] at hcon
          rcases List.mem_cons.mp hcon with rfl | h2
          · exact hb hmem
          · exact ih hnd2 h h2


theorem overlapSeg_symm {a b : CalendarSegment} (h : OverlapSeg a b) :
    OverlapSeg b a := by
  unfold OverlapSeg at *
  omega

theorem segConnected_symm {segs : List CalendarSegment}
    {a b : CalendarSegment} (h : SegConnected segs a b) :
    SegConnected segs b a := by
  refine Relation.ReflTransGen.symmetric ?_ h
  intro u v huv
  exact ⟨huv.2.1, huv.1, overlapSeg_symm huv.2.2⟩

theorem segConnected_mono {p : List CalendarSegment} {s : CalendarSegment}
    {a b : CalendarSegment} (h : SegConnected p a b) :
    SegConnected (p ++ [s]) a b := by
  refine Relation.ReflTransGen.mono ?_ h
  intro u v huv
  exact ⟨List.mem_append_left _ huv.1, List.mem_append_left _ huv.2.1, huv.2.2⟩

theorem layoutStep_reset_eq (st : LayoutState) (s : CalendarSegment)
    (hres : (releaseFinished s.segmentStartMinutes st.active st.freeColumns).1 = []) :
    layoutStep st s =
      { laidOut := st.laidOut ++
          [⟨s, 0, 1, st.currentGroupId + 1⟩],
        active := [⟨s, 0, 1, st.currentGroupId + 1⟩],
        freeColumns := [], nextColumnIndex := 1,
        currentGroupId := st.currentGroupId + 1,
        groupMax := bumpGroupMax (st.currentGroupId + 1) 1 st.groupMax } := by
  unfold layoutStep
  simp [hres]

theorem layoutStep_pop_eq (st : LayoutState) (s : CalendarSegment) (c : Nat)
    (hres : (releaseFinished s.segmentStartMinutes st.active st.freeColumns).1 ≠ [])
    (hfl : (releaseFinished s.segmentStartMinutes st.active st.freeColumns).2.getLast? =
      some c) :
    layoutStep st s =
      { laidOut := st.laidOut ++ [⟨s, c, 1, st.currentGroupId⟩],
        active := (releaseFinished s.segmentStartMinutes st.active st.freeColumns).1 ++
          [⟨s, c, 1, st.currentGroupId⟩],
        freeColumns :=
          (releaseFinished s.segmentStartMinutes st.active st.freeColumns).2.dropLast,
        nextColumnIndex := st.nextColumnIndex,
        currentGroupId := st.currentGroupId,
        groupMax := bumpGroupMax st.currentGroupId (c + 1) st.groupMax } := by
  unfold layoutStep
  simp [hres, hfl]

theorem layoutStep_fresh_eq (st : LayoutState) (s : CalendarSegment)
    (hres : (releaseFinished s.segmentStartMinutes st.active st.freeColumns).1 ≠ [])
    (hfl : (releaseFinished s.segmentStartMinutes st.active st.freeColumns).2 = []) :
    layoutStep st s =
      { laidOut := st.laidOut ++ [⟨s, st.nextColumnIndex, 1, st.currentGroupId⟩],
        active := (releaseFinished s.segmentStartMinutes st.active st.freeColumns).1 ++
          [⟨s, st.nextColumnIndex, 1, st.currentGroupId⟩],
        freeColumns := [],
        nextColumnIndex := st.nextColumnIndex + 1,
        currentGroupId := st.currentGroupId,
        groupMax := bumpGroupMax st.currentGroupId (st.nextColumnIndex + 1)
          st.groupMax } := by
  unfold layoutStep
  simp [hres, hfl]

theorem layoutInv_init : LayoutInv [] initLayoutState := by
  constructor <;> simp [initLayoutState, lookupGroupMax]


theorem rel1_eq (p : List CalendarSegment) (s : CalendarSegment)
    (st : LayoutState) (inv : LayoutInv p st)
    (hsort : ∀ x ∈ p, x.segmentStartMinutes ≤ s.segmentStartMinutes) :
    (releaseFinished s.segmentStartMinutes st.active st.freeColumns).1 =
      st.laidOut.filter
        (fun ws => decide (s.segmentStartMinutes < ws.seg.segmentEndMinutes)) := by
  rw [releaseFinished_eq]
  by_cases hp : p = []
  · have hst := inv.empty_case hp
    subst hst
    rfl
  · obtain ⟨lastS, hlast⟩ := Option.isSome_iff_exists.mp
      (List.getLast?_isSome.mpr hp)
    rw [inv.active_spec lastS hlast]
    apply filter_filter_of_imp
    intro x hx hKx
    have hmem : lastS ∈ p := List.mem_of_mem_getLast? hlast
    have hle := hsort lastS hmem
    simp only [decide_eq_true_eq] at hKx ⊢
    omega

theorem rel1_mem_active {s : CalendarSegment} {st : LayoutState}
    {x : WorkingSegment}
    (hx : x ∈ (releaseFinished s.segmentStartMinutes st.active st.freeColumns).1) :
    x ∈ st.active := by
  rw [releaseFinished_eq] at hx
  exact List.mem_of_mem_filter hx

theorem rel1_keeps {s : CalendarSegment} {st : LayoutState}
    {x : WorkingSegment}
    (hx : x ∈ (releaseFinished s.segmentStartMinutes st.active st.freeColumns).1) :
    s.segmentStartMinutes < x.seg.segmentEndMinutes := by
  rw [releaseFinished_eq] at hx
  simpa using List.of_mem_filter hx

theorem rel1_cols_nodup (s : CalendarSegment) (st : LayoutState)
    (inv0 : (st.active.map (fun ws => ws.columnIndex)).Nodup) :
    (((releaseFinished s.segmentStartMinutes st.active st.freeColumns).1).map
      (fun ws => ws.columnIndex)).Nodup := by
  rw [releaseFinished_eq]
  exact inv0.sublist ((List.filter_sublist _).map _)

theorem rel2_nodup (p : List CalendarSegment) (s : CalendarSegment)
    (st : LayoutState) (inv : LayoutInv p st) :
    ((releaseFinished s.segmentStartMinutes st.active st.freeColumns).2).Nodup := by
  rw [releaseFinished_eq]
  rw [List.nodup_append]
  refine ⟨inv.free_nodup, ?_, ?_⟩
  · rw [List.map_reverse, List.nodup_reverse]
    exact inv.active_cols_nodup.sublist ((List.filter_sublist _).map _)
  · intro c hc hc2
    rw [List.map_reverse, List.mem_reverse] at hc2
    obtain ⟨y, hy, hyc⟩ := List.mem_map.mp hc2
    exact inv.free_not_active c hc
      (List.mem_map.mpr ⟨y, List.mem_of_mem_filter hy, hyc⟩)

theorem rel2_facts (p : List CalendarSegment) (s : CalendarSegment)
    (st : LayoutState) (inv : LayoutInv p st) :
    ∀ c ∈ (releaseFinished s.segmentStartMinutes st.active st.freeColumns).2,
      c ∉ ((releaseFinished s.segmentStartMinutes st.active st.freeColumns).1).map
        (fun ws => ws.columnIndex) ∧ c < st.nextColumnIndex := by
  intro c hc
  rw [releaseFinished_eq] at hc ⊢
  rcases List.mem_append.mp hc with hcf | hcR
  · constructor
    · intro hcon
      obtain ⟨x, hx, hxc⟩ := List.mem_map.mp hcon
      exact inv.free_not_active c hcf
        (List.mem_map.mpr ⟨x, List.mem_of_mem_filter hx, hxc⟩)
    · exact inv.free_lt_next c hcf
  · rw [List.map_reverse, List.mem_reverse] at hcR
    obtain ⟨y, hy, rfl⟩ := List.mem_map.mp hcR
    have hyact := List.mem_of_mem_filter hy
    constructor
    · intro hcon
      obtain ⟨x, hx, hxc⟩ := List.mem_map.mp hcon
      have hxact := List.mem_of_mem_filter hx
      have hxy : x = y :=
        List.inj_on_of_nodup_map inv.active_cols_nodup hxact hyact hxc
      have hKx := List.of_mem_filter hx
      have hKy := List.of_mem_filter hy
      rw [hxy] at hKx
      simp only [decide_eq_true_eq] at hKx hKy
      omega
    · exact inv.active_lt_next y hyact


theorem layoutInv_step_nonreset (p : List CalendarSegment) (s : CalendarSegment)
    (st : LayoutState) (inv : LayoutInv p st)
    (hsort : ∀ x ∈ p, x.segmentStartMinutes ≤ s.segmentStartMinutes)
    (hposs : s.segmentStartMinutes < s.segmentEndMinutes)
    (hres : (releaseFinished s.segmentStartMinutes st.active st.freeColumns).1 ≠ [])
    (hrel1 : (releaseFinished s.segmentStartMinutes st.active st.freeColumns).1 =
      st.laidOut.filter
        (fun ws => decide (s.segmentStartMinutes < ws.seg.segmentEndMinutes)))
    (w : WorkingSegment)
    (hw : w ∈ (releaseFinished s.segmentStartMinutes st.active st.freeColumns).1)
    (hwlaid : w ∈ st.laidOut)
    (hwgid : w.groupId = st.currentGroupId)
    (hovws : OverlapSeg w.seg s)
    (hrelN : (((releaseFinished s.segmentStartMinutes st.active st.freeColumns).1).map
      (fun ws => ws.columnIndex)).Nodup)
    (col next2 : Nat) (free2 : List Nat)
    (hcol : col ∉ ((releaseFinished s.segmentStartMinutes st.active st.freeColumns).1).map
      (fun ws => ws.columnIndex))
    (hcol_lt : col < next2)
    (hact_lt : ∀ x ∈ (releaseFinished s.segmentStartMinutes st.active st.freeColumns).1,
      x.columnIndex < next2)
    (hfree2N : free2.Nodup)
    (hfree2 : ∀ d ∈ free2,
      d ∉ ((releaseFinished s.segmentStartMinutes st.active st.freeColumns).1).map
        (fun ws => ws.columnIndex) ∧ d ≠ col ∧ d < next2) :
    LayoutInv (p ++ [s])
      { laidOut := st.laidOut ++ [⟨s, col, 1, st.currentGroupId⟩],
        active := (releaseFinished s.segmentStartMinutes st.active st.freeColumns).1 ++
          [⟨s, col, 1, st.currentGroupId⟩],
        freeColumns := free2, nextColumnIndex := next2,
        currentGroupId := st.currentGroupId,
        groupMax := bumpGroupMax st.currentGroupId (col + 1) st.groupMax } := by
  have hwseg_mem : w.seg ∈ p := by
    rw [← inv.seg_eq]
    exact List.mem_map.mpr ⟨w, hwlaid, rfl⟩
  refine ⟨?_, ?_, ?_, ?_, ?_, ?_, ?_, ?_, ?_, ?_, ?_, ?_, ?_, ?_, ?_, ?_⟩
  · simp [inv.seg_eq]
  · intro lastS hlast
    rw [List.getLast?_concat] at hlast
    have hlast2 : lastS = s := by
      cases hlast
      rfl
    subst hlast2
    rw [List.filter_append, ← hrel1]
    simp [hposs]
  · intro h
    simp at h
  · rw [List.map_append, List.nodup_append]
    refine ⟨hrelN, by simp, ?_⟩
    intro a ha hb
    simp at hb
    subst hb
    exact hcol ha
  · exact hfree2N
  · intro d hd
    have hdf := hfree2 d hd
    rw [List.map_append]
    intro hmem
    rcases List.mem_append.mp hmem with h1 | h2
    · exact hdf.1 h1
    · simp at h2
      exact hdf.2.1 h2
  · intro x hx
    rcases List.mem_append.mp hx with h1 | h2
    · exact hact_lt x h1
    · simp at h2
      subst h2
      simpa using hcol_lt
  · intro d hd
    exact (hfree2 d hd).2.2
  · intro x hx
    rcases List.mem_append.mp hx with h1 | h2
    · exact inv.active_gid x (rel1_mem_active h1)
    · simp at h2
      subst h2
      rfl
  · intro x hx
    rcases List.mem_append.mp hx with h1 | h2
    · exact inv.laid_gid_le x h1
    · simp at h2
      subst h2
      exact Nat.le_refl _
  · rw [List.pairwise_append]
    refine ⟨inv.pairwise_cols, by simp, ?_⟩
    intro x hx y hy
    simp at hy
    subst hy
    intro hov hcoleq
    have hxK : x ∈ (releaseFinished s.segmentStartMinutes st.active st.freeColumns).1 := by
      rw [hrel1]
      refine List.mem_filter.mpr ⟨hx, ?_⟩
      unfold OverlapSeg at hov
      dsimp only at hov
      simp only [decide_eq_true_eq]
      omega
    apply hcol
    dsimp only at hcoleq
    rw [← hcoleq]
    exact List.mem_map.mpr ⟨x, hxK, rfl⟩
  · intro x hx y hy hgid
    rcases List.mem_append.mp hx with hx1 | hx2 <;>
      rcases List.mem_append.mp hy with hy1 | hy2
    · exact segConnected_mono (inv.conn_of_gid x hx1 y hy1 hgid)
    · simp at hy2
      subst hy2
      dsimp only at hgid
      have hconn1 : SegConnected p x.seg w.seg :=
        inv.conn_of_gid x hx1 w hwlaid (by omega)
      refine Relation.ReflTransGen.tail (segConnected_mono hconn1) ?_
      exact ⟨List.mem_append_left _ hwseg_mem,
        List.mem_append_right _ (by simp), hovws⟩
    · simp at hx2
      subst hx2
      dsimp only at hgid
      apply segConnected_symm
      have hconn1 : SegConnected p y.seg w.seg :=
        inv.conn_of_gid y hy1 w hwlaid (by omega)
      refine Relation.ReflTransGen.tail (segConnected_mono hconn1) ?_
      exact ⟨List.mem_append_left _ hwseg_mem,
        List.mem_append_right _ (by simp), hovws⟩
    · simp at hx2 hy2
      subst hx2
      subst hy2
      exact Relation.ReflTransGen.refl
  · intro x hx y hy hov
    rcases List.mem_append.mp hx with hx1 | hx2 <;>
      rcases List.mem_append.mp hy with hy1 | hy2
    · exact inv.gid_of_overlap x hx1 y hy1 hov
    · simp at hy2
      subst hy2
      dsimp only
      have hxK : x ∈ (releaseFinished s.segmentStartMinutes st.active st.freeColumns).1 := by
        rw [hrel1]
        refine List.mem_filter.mpr ⟨hx1, ?_⟩
        unfold OverlapSeg at hov
        dsimp only at hov
        simp only [decide_eq_true_eq]
        omega
      exact inv.active_gid x (rel1_mem_active hxK)
    · simp at hx2
      subst hx2
      dsimp only
      have hyK : y ∈ (releaseFinished s.segmentStartMinutes st.active st.freeColumns).1 := by
        rw [hrel1]
        refine List.mem_filter.mpr ⟨hy1, ?_⟩
        unfold OverlapSeg at hov
        dsimp only at hov
        simp only [decide_eq_true_eq]
        omega
      exact (inv.active_gid y (rel1_mem_active hyK)).symm
    · simp at hx2 hy2
      subst hx2
      subst hy2
      rfl
  · intro x hx
    rcases List.mem_append.mp hx with hx1 | hx2
    · obtain ⟨y, hy, h1, h2⟩ := inv.zero_col x hx1
      exact ⟨y, List.mem_append_left _ hy, h1, h2⟩
    · simp at hx2
      subst hx2
      obtain ⟨y, hy, h1, h2⟩ := inv.zero_col w hwlaid
      refine ⟨y, List.mem_append_left _ hy, ?_, h2⟩
      dsimp only
      omega
  · intro g'
    by_cases hg : g' = st.currentGroupId
    · subst hg
      rw [lookupGroupMax_bump_self]
      simp only [Option.isSome_some, true_iff]
      exact ⟨⟨s, col, 1, st.currentGroupId⟩,
        List.mem_append_right _ (by simp), rfl⟩
    · rw [lookupGroupMax_bump_other hg, inv.gmax_isSome g']
      constructor
      · rintro ⟨x, hx, hgx⟩
        exact ⟨x, List.mem_append_left _ hx, hgx⟩
      · rintro ⟨x, hx, hgx⟩
        rcases List.mem_append.mp hx with h1 | h2
        · exact ⟨x, h1, hgx⟩
        · simp at h2
          subst h2
          dsimp only at hgx
          exact absurd hgx.symm hg
  · intro g' m hm
    by_cases hg : g' = st.currentGroupId
    · subst hg
      rw [lookupGroupMax_bump_self] at hm
      have hsome : (lookupGroupMax st.currentGroupId st.groupMax).isSome :=
        (inv.gmax_isSome _).mpr ⟨w, hwlaid, hwgid⟩
      rcases ho : lookupGroupMax st.currentGroupId st.groupMax with _ | m0
      · rw [ho] at hsome
        simp at hsome
      · rw [ho] at hm
        have hm2 : some (max m0 (col + 1)) = some m := hm
        have hm3 : max m0 (col + 1) = m := by injection hm2
        have hv0 := inv.gmax_val _ m0 ho
        have hfilter : (st.laidOut ++
            [(⟨s, col, 1, st.currentGroupId⟩ : WorkingSegment)]).filter
              (fun ws => ws.groupId == st.currentGroupId) =
            st.laidOut.filter (fun ws => ws.groupId == st.currentGroupId) ++
              [⟨s, col, 1, st.currentGroupId⟩] := by
          rw [List.filter_append]
          simp
        rw [hfilter, List.map_append]
        have hmap : ([(⟨s, col, 1, st.currentGroupId⟩ : WorkingSegment)]).map
            (fun ws => ws.columnIndex + 1) = [col + 1] := rfl
        rw [hmap, foldr_max_concat, ← hv0]
        omega
    · rw [lookupGroupMax_bump_other hg] at hm
      have hval := inv.gmax_val g' m hm
      have hfilter : (st.laidOut ++
          [(⟨s, col, 1, st.currentGroupId⟩ : WorkingSegment)]).filter
            (fun ws => ws.groupId == g') =
          st.laidOut.filter (fun ws => ws.groupId == g') := by
        rw [List.filter_append]
        have h1 : ([(⟨s, col, 1, st.currentGroupId⟩ : WorkingSegment)]).filter
            (fun ws => ws.groupId == g') = [] := by
          simp only [List.filter_cons, List.filter_nil]
          have hne : ¬ ((st.currentGroupId == g') = true) := by
            simp only [beq_iff_eq]
            exact fun hcon => hg hcon.symm
          simp [hne]
        rw [h1, List.append_nil]
      rw [hfilter]
      exact hval

theorem layoutInv_step (p : List CalendarSegment) (s : CalendarSegment)
    (st : LayoutState) (inv : LayoutInv p st)
    (hsort : ∀ x ∈ p, x.segmentStartMinutes ≤ s.segmentStartMinutes)
    (hposs : s.segmentStartMinutes < s.segmentEndMinutes) :
    LayoutInv (p ++ [s]) (layoutStep st s) := by
  have hrel1 := rel1_eq p s st inv hsort
  by_cases hres :
      (releaseFinished s.segmentStartMinutes st.active st.freeColumns).1 = []
  · -- reset: the active set emptied, a new group starts at column 0
    rw [layoutStep_reset_eq st s hres]
    have h0 : st.laidOut.filter
        (fun ws => decide (s.segmentStartMinutes < ws.seg.segmentEndMinutes)) = [] := by
      rw [← hrel1]
      exact hres
    have hall : ∀ x ∈ st.laidOut, x.seg.segmentEndMinutes ≤ s.segmentStartMinutes := by
      intro x hx
      have h1 := List.filter_eq_nil_iff.mp h0 x hx
      simp only [decide_eq_true_eq] at h1
      omega
    refine ⟨?_, ?_, ?_, ?_, ?_, ?_, ?_, ?_, ?_, ?_, ?_, ?_, ?_, ?_, ?_, ?_⟩
    ·
      simp [inv.seg_eq]
    ·
      intro lastS hlast
      rw [List.getLast?_concat] at hlast
      have hlast2 : lastS = s := by
        cases hlast
        rfl
      subst hlast2
      rw [List.filter_append, h0]
      simp [hposs]
    ·
      intro h
      simp at h
    · simp
    · exact List.nodup_nil
    ·
      intro c hc
      simp at hc
    ·
      intro ws hws
      simp at hws
      simp [hws]
    ·
      intro c hc
      simp at hc
    ·
      intro ws hws
      simp at hws
      simp [hws]
    ·
      intro ws hws
      rcases List.mem_append.mp hws with h1 | h2
      · have := inv.laid_gid_le ws h1
        dsimp only
        omega
      · simp at h2
        simp [h2]
    ·
      rw [List.pairwise_append]
      refine ⟨inv.pairwise_cols, by simp, ?_⟩
      intro x hx y hy
      simp at hy
      subst hy
      intro hov hcol
      have h1 := hall x hx
      unfold OverlapSeg at hov
      dsimp only at hov
      omega
    ·
      intro x hx y hy hgid
      rcases List.mem_append.mp hx with hx1 | hx2 <;>
        rcases List.mem_append.mp hy with hy1 | hy2
      · exact segConnected_mono (inv.conn_of_gid x hx1 y hy1 hgid)
      · simp at hy2
        subst hy2
        have := inv.laid_gid_le x hx1
        dsimp only at hgid
        omega
      · simp at hx2
        subst hx2
        have := inv.laid_gid_le y hy1
        dsimp only at hgid
        omega
      · simp at hx2 hy2
        subst hx2
        subst hy2
        exact Relation.ReflTransGen.refl
    ·
      intro x hx y hy hov
      rcases List.mem_append.mp hx with hx1 | hx2 <;>
        rcases List.mem_append.mp hy with hy1 | hy2
      · exact inv.gid_of_overlap x hx1 y hy1 hov
      · simp at hy2
        subst hy2
        exfalso
        have := hall x hx1
        unfold OverlapSeg at hov
        dsimp only at hov
        omega
      · simp at hx2
        subst hx2
        exfalso
        have := hall y hy1
        unfold OverlapSeg at hov
        dsimp only at hov
        omega
      · simp at hx2 hy2
        subst hx2
        subst hy2
        rfl
    ·
      intro x hx
      rcases List.mem_append.mp hx with hx1 | hx2
      · obtain ⟨y, hy, hgy, hcy⟩ := inv.zero_col x hx1
        exact ⟨y, List.mem_append_left _ hy, hgy, hcy⟩
      · simp at hx2
        subst hx2
        exact ⟨⟨s, 0, 1, st.currentGroupId + 1⟩,
          List.mem_append_right _ (by simp), rfl, rfl⟩
    ·
      intro g'
      by_cases hg : g' = st.currentGroupId + 1
      · subst hg
        rw [lookupGroupMax_bump_self]
        simp only [Option.isSome_some, true_iff]
        exact ⟨⟨s, 0, 1, st.currentGroupId + 1⟩,
          List.mem_append_right _ (by simp), rfl⟩
      · rw [lookupGroupMax_bump_other hg, inv.gmax_isSome g']
        constructor
        · rintro ⟨ws, hws, hgws⟩
          exact ⟨ws, List.mem_append_left _ hws, hgws⟩
        · rintro ⟨ws, hws, hgws⟩
          rcases List.mem_append.mp hws with h1 | h2
          · exact ⟨ws, h1, hgws⟩
          · simp at h2
            subst h2
            dsimp only at hgws
            exact absurd hgws.symm hg
    ·
      intro g' m hm
      by_cases hg : g' = st.currentGroupId + 1
      · subst hg
        rw [lookupGroupMax_bump_self] at hm
        have hnone : lookupGroupMax (st.currentGroupId + 1) st.groupMax = none := by
          rcases ho : lookupGroupMax (st.currentGroupId + 1) st.groupMax with _ | m0
          · rfl
          · exfalso
            have hsome : (lookupGroupMax (st.currentGroupId + 1) st.groupMax).isSome := by
              rw [ho]
              rfl
            obtain ⟨ws, hws, hgws⟩ := (inv.gmax_isSome _).mp hsome
            have := inv.laid_gid_le ws hws
            omega
        rw [hnone] at hm
        simp at hm
        have hfilter : (st.laidOut ++ [(⟨s, 0, 1, st.currentGroupId + 1⟩ : WorkingSegment)]).filter
            (fun ws => ws.groupId == st.currentGroupId + 1) =
            [⟨s, 0, 1, st.currentGroupId + 1⟩] := by
          rw [List.filter_append]
          have h1 : st.laidOut.filter
              (fun ws => ws.groupId == st.currentGroupId + 1) = [] := by
            rw [List.filter_eq_nil_iff]
            intro a ha
            have := inv.laid_gid_le a ha
            simp only [beq_iff_eq]
            omega
          rw [h1]
          simp
        rw [hfilter]
        simp [hm]
      · rw [lookupGroupMax_bump_other hg] at hm
        have hval := inv.gmax_val g' m hm
        have hfilter : (st.laidOut ++ [(⟨s, 0, 1, st.currentGroupId + 1⟩ : WorkingSegment)]).filter
            (fun ws => ws.groupId == g') =
            st.laidOut.filter (fun ws => ws.groupId == g') := by
          rw [List.filter_append]
          have h1 : ([(⟨s, 0, 1, st.currentGroupId + 1⟩ : WorkingSegment)]).filter
              (fun ws => ws.groupId == g') = [] := by
            simp only [List.filter_cons, List.filter_nil]
            have : ¬ ((st.currentGroupId + 1) == g') = true := by
              simp only [beq_iff_eq]
              exact fun hcon => hg hcon.symm
            simp [this]
          rw [h1, List.append_nil]
        rw [hfilter]
        exact hval
  · -- the active set survives: same group continues
    obtain ⟨w, hw⟩ := List.exists_mem_of_ne_nil _ hres
    have hwact : w ∈ st.active := rel1_mem_active hw
    have hwgid : w.groupId = st.currentGroupId := inv.active_gid w hwact
    have hwlaid : w ∈ st.laidOut := by
      rw [hrel1] at hw
      exact List.mem_of_mem_filter hw
    have hKw := rel1_keeps hw
    have hwseg_mem : w.seg ∈ p := by
      rw [← inv.seg_eq]
      exact List.mem_map.mpr ⟨w, hwlaid, rfl⟩
    have hovws : OverlapSeg w.seg s := by
      have := hsort w.seg hwseg_mem
      unfold OverlapSeg
      omega
    have hrelN := rel1_cols_nodup s st inv.active_cols_nodup
    have hrel2N := rel2_nodup p s st inv
    have hrel2F := rel2_facts p s st inv
    rcases hfl : (releaseFinished s.segmentStartMinutes st.active st.freeColumns).2.getLast?
      with _ | c
    · have hl2nil :
          (releaseFinished s.segmentStartMinutes st.active st.freeColumns).2 = [] :=
        List.getLast?_eq_none_iff.mp hfl
      rw [layoutStep_fresh_eq st s hres hl2nil]
      apply layoutInv_step_nonreset p s st inv hsort hposs hres hrel1 w hw
        hwlaid hwgid hovws hrelN
      · intro hcon
        obtain ⟨x, hx, hxc⟩ := List.mem_map.mp hcon
        have := inv.active_lt_next x (rel1_mem_active hx)
        omega
      · omega
      · intro x hx
        have := inv.active_lt_next x (rel1_mem_active hx)
        omega
      · exact List.nodup_nil
      · intro d hd
        simp at hd
    · rw [layoutStep_pop_eq st s c hres hfl]
      have hcmem : c ∈ (releaseFinished s.segmentStartMinutes st.active st.freeColumns).2 :=
        List.mem_of_mem_getLast? hfl
      have hcf := hrel2F c hcmem
      apply layoutInv_step_nonreset p s st inv hsort hposs hres hrel1 w hw
        hwlaid hwgid hovws hrelN
      · exact hcf.1
      · exact hcf.2
      · intro x hx
        exact inv.active_lt_next x (rel1_mem_active hx)
      · exact hrel2N.sublist (List.dropLast_sublist _)
      · intro d hd
        have hd2 : d ∈ (releaseFinished s.segmentStartMinutes st.active st.freeColumns).2 :=
          (List.dropLast_sublist _).subset hd
        have hdf := hrel2F d hd2
        refine ⟨hdf.1, ?_, hdf.2⟩
        intro hcon
        subst hcon
        exact getLast?_nodup_dropLast hrel2N hfl hd


theorem layoutInv_fold (segs : List CalendarSegment)
    (hsorted : segs.Pairwise
      (fun a b => a.segmentStartMinutes ≤ b.segmentStartMinutes))
    (hpos : ∀ x ∈ segs, x.segmentStartMinutes < x.segmentEndMinutes) :
    LayoutInv segs (segs.foldl layoutStep initLayoutState) := by
  induction segs using List.reverseRecOn with
  | nil => exact layoutInv_init
  | append_singleton p s ih =>
      rw [List.foldl_append]
      simp only [List.foldl_cons, List.foldl_nil]
      have hp := List.pairwise_append.mp hsorted
      refine layoutInv_step p s _
        (ih hp.1 (fun x hx => hpos x (List.mem_append_left _ hx))) ?_ ?_
      · intro x hx
        exact hp.2.2 x hx s (by simp)
      · exact hpos s (List.mem_append_right _ (by simp))

theorem gid_of_connected (segs : List CalendarSegment) (st : LayoutState)
    (inv : LayoutInv segs st)
    (hpos : ∀ x ∈ segs, x.segmentStartMinutes < x.segmentEndMinutes)
    {a b : CalendarSegment} (h : SegConnected segs a b) :
    ∀ wx ∈ st.laidOut, wx.seg = a → ∀ wy ∈ st.laidOut, wy.seg = b →
      wx.groupId = wy.groupId := by
  induction h with
  | refl =>
      intro wx hwx hxa wy hwy hyb
      apply inv.gid_of_overlap wx hwx wy hwy
      rw [hxa, hyb]
      have hamem : a ∈ segs := by
        rw [← inv.seg_eq]
        exact List.mem_map.mpr ⟨wx, hwx, hxa⟩
      have := hpos a hamem
      unfold OverlapSeg
      omega
  | tail hab hstep ih =>
      intro wx hwx hxa wz hwz hzc
      obtain ⟨hbmem, hcmem, hovbc⟩ := hstep
      have hbmap := hbmem
      rw [← inv.seg_eq] at hbmap
      obtain ⟨wy, hwy, hyb⟩ := List.mem_map.mp hbmap
      have h1 := ih wx hwx hxa wy hwy hyb
      have h2 : wy.groupId = wz.groupId := by
        apply inv.gid_of_overlap wy hwy wz hwz
        rw [hyb, hzc]
        exact hovbc
      omega

theorem connected_isolated (segs : List CalendarSegment)
    {a b : CalendarSegment}
    (hiso : ∀ y ∈ segs, OverlapSeg a y → y = a)
    (h : SegConnected segs a b) : b = a := by
  induction h with
  | refl => rfl
  | tail hab hstep ih =>
      obtain ⟨hbmem, hcmem, hov⟩ := hstep
      rw [ih] at hov
      exact hiso _ hcmem hov

theorem length_le_countP {α : Type} (l lsub : List α) (p : α → Bool)
    (hsub : List.Sublist lsub l) (hall : ∀ x ∈ lsub, p x = true) :
    lsub.length ≤ l.countP p := by
  have h1 : lsub.filter p = lsub := List.filter_eq_self.mpr hall
  have h2 : List.Sublist (lsub.filter p) (l.filter p) := hsub.filter p
  rw [h1] at h2
  rw [List.countP_eq_length_filter]
  exact h2.length_le


/-- C1: for any one-day segment list sorted ascending by start with
positive durations, `layoutSegmentsWithColumns` gives no two overlapping
segments the same `columnIndex`, gives every segment as `columnCount` the
maximum `columnIndex + 1` over its temporally connected group (attained by
some member of the group), and hence gives every isolated segment
`columnCount = 1`. -/
theorem layoutSegmentsWithColumns_correct (segs : List CalendarSegment)
    (hsorted : segs.Pairwise
      (fun a b => a.segmentStartMinutes ≤ b.segmentStartMinutes))
    (hpos : ∀ x ∈ segs, x.segmentStartMinutes < x.segmentEndMinutes) :
    LayoutCorrect segs (layoutSegmentsWithColumns segs) := by
  have inv := layoutInv_fold segs hsorted hpos
  unfold layoutSegmentsWithColumns
  refine ⟨?_, ?_, ?_⟩
  · rw [List.pairwise_map]
    exact inv.pairwise_cols.imp (fun h => h)
  · intro x hx
    obtain ⟨wx, hwx, rfl⟩ := List.mem_map.mp hx
    have hsome : (lookupGroupMax wx.groupId
        (segs.foldl layoutStep initLayoutState).groupMax).isSome :=
      (inv.gmax_isSome _).mpr ⟨wx, hwx, rfl⟩
    rcases ho : lookupGroupMax wx.groupId
        (segs.foldl layoutStep initLayoutState).groupMax with _ | m
    · rw [ho] at hsome
      simp at hsome
    · have hval := inv.gmax_val _ m ho
      constructor
      · intro y hy hconn
        obtain ⟨wy, hwy, rfl⟩ := List.mem_map.mp hy
        have hgid : wx.groupId = wy.groupId :=
          gid_of_connected segs _ inv hpos hconn wx hwx rfl wy hwy rfl
        have hmem : wy ∈ (segs.foldl layoutStep initLayoutState).laidOut.filter
            (fun ws => ws.groupId == wx.groupId) :=
          List.mem_filter.mpr ⟨hwy, by simp [beq_iff_eq, hgid.symm]⟩
        have hin : wy.columnIndex + 1 ∈
            ((segs.foldl layoutStep initLayoutState).laidOut.filter
              (fun ws => ws.groupId == wx.groupId)).map
              (fun ws => ws.columnIndex + 1) :=
          List.mem_map.mpr ⟨wy, hmem, rfl⟩
        have hle := le_foldr_max hin
        dsimp only
        rw [Option.getD_some, hval]
        exact hle
      · have hmemx : wx ∈ (segs.foldl layoutStep initLayoutState).laidOut.filter
            (fun ws => ws.groupId == wx.groupId) :=
          List.mem_filter.mpr ⟨hwx, by simp⟩
        have hne : ((segs.foldl layoutStep initLayoutState).laidOut.filter
            (fun ws => ws.groupId == wx.groupId)).map
            (fun ws => ws.columnIndex + 1) ≠ [] := by
          intro h0
          rw [List.map_eq_nil_iff] at h0
          rw [h0] at hmemx
          simp at hmemx
        have hfm := foldr_max_mem hne
        obtain ⟨wy, hwy2, hwyeq⟩ := List.mem_map.mp hfm
        have hwy := List.mem_of_mem_filter hwy2
        have hgid : wy.groupId = wx.groupId := by
          simpa [beq_iff_eq] using List.of_mem_filter hwy2
        refine ⟨_, List.mem_map.mpr ⟨wy, hwy, rfl⟩, ?_, ?_⟩
        · dsimp only
          exact inv.conn_of_gid wx hwx wy hwy hgid.symm
        · dsimp only
          rw [Option.getD_some, hval, ← hwyeq]
  · intro x hx hiso hcount
    obtain ⟨wx, hwx, rfl⟩ := List.mem_map.mp hx
    have hgrp : ∀ wy ∈ (segs.foldl layoutStep initLayoutState).laidOut.filter
        (fun ws => ws.groupId == wx.groupId), wy.seg = wx.seg := by
      intro wy hwy2
      have hwy := List.mem_of_mem_filter hwy2
      have hgid : wy.groupId = wx.groupId := by
        simpa [beq_iff_eq] using List.of_mem_filter hwy2
      have hconn := inv.conn_of_gid wx hwx wy hwy hgid.symm
      exact connected_isolated segs hiso hconn
    have hcount2 : (segs.foldl layoutStep initLayoutState).laidOut.countP
        (fun ws => decide (ws.seg = wx.seg)) = 1 := by
      rw [← inv.seg_eq, List.countP_map] at hcount
      simpa [Function.comp] using hcount
    have hlen : ((segs.foldl layoutStep initLayoutState).laidOut.filter
        (fun ws => ws.groupId == wx.groupId)).length ≤
        (segs.foldl layoutStep initLayoutState).laidOut.countP
          (fun ws => decide (ws.seg = wx.seg)) :=
      length_le_countP _ _ _ (List.filter_sublist _)
        (fun y hy => by simp [hgrp y hy])
    have hmemx : wx ∈ (segs.foldl layoutStep initLayoutState).laidOut.filter
        (fun ws => ws.groupId == wx.groupId) :=
      List.mem_filter.mpr ⟨hwx, by simp⟩
    have hlenpos : 1 ≤ ((segs.foldl layoutStep initLayoutState).laidOut.filter
        (fun ws => ws.groupId == wx.groupId)).length :=
      List.length_pos.mpr (List.ne_nil_of_mem hmemx)
    have hlen2 : ((segs.foldl layoutStep initLayoutState).laidOut.filter
        (fun ws => ws.groupId == wx.groupId)).length = 1 := by
      omega
    obtain ⟨z, hz⟩ := List.length_eq_one.mp hlen2
    have hzx : wx = z := by
      rw [hz] at hmemx
      simpa using hmemx
    have hcol0 : wx.columnIndex = 0 := by
      obtain ⟨y, hy, hgy, hcy⟩ := inv.zero_col wx hwx
      have hymem : y ∈ (segs.foldl layoutStep initLayoutState).laidOut.filter
          (fun ws => ws.groupId == wx.groupId) :=
        List.mem_filter.mpr ⟨hy, by simp [beq_iff_eq, hgy]⟩
      rw [hz] at hymem
      simp at hymem
      rw [hymem, ← hzx] at hcy
      exact hcy
    have hsome : (lookupGroupMax wx.groupId
        (segs.foldl layoutStep initLayoutState).groupMax).isSome :=
      (inv.gmax_isSome _).mpr ⟨wx, hwx, rfl⟩
    rcases ho : lookupGroupMax wx.groupId
        (segs.foldl layoutStep initLayoutState).groupMax with _ | m
    · rw [ho] at hsome
      simp at hsome
    · have hval := inv.gmax_val _ m ho
      rw [hz, ← hzx] at hval
      dsimp only
      rw [Option.getD_some]
      simp at hval
      omega


/-- C2 counterexample to the lowest-free-column policy: after the first
four segments of `c2Segs` the free pool is `[0, 1]`, and the fifth segment
receives column 1 (the most recently released) even though column 0 is
free, so the overall assignment is `[0, 1, 0, 2, 1]`. -/
theorem layoutStep_pops_most_recent_not_lowest :
    ((layoutSegmentsWithColumns c2Segs).map (fun s => s.columnIndex) =
      [0, 1, 0, 2, 1]) ∧
    (releaseFinished 50 c2State.active c2State.freeColumns).2 = [0, 1] := by
  decide

/-- C2 (amended): when a segment is placed while the free-column pool is
non-empty, the engine assigns the most recently released free column (the
top of the `freeColumns` stack, popped off), not the lowest free index;
only when the pool is empty is a fresh column allocated via
`nextColumnIndex`, which then increments. The three-segment scenario
[09:00,10:00), [09:30,10:30), [10:00,11:00) of the claim still assigns the
third segment `columnIndex` 0, because there the pool holds exactly one
released column. -/
theorem layoutStep_column_choice (st : LayoutState) (segment : CalendarSegment)
    (hne : (releaseFinished segment.segmentStartMinutes st.active
      st.freeColumns).1 ≠ [])
    (c : Nat)
    (hc : (releaseFinished segment.segmentStartMinutes st.active
      st.freeColumns).2.getLast? = some c) :
    ((layoutStep st segment).active.getLast? =
        some { seg := segment, columnIndex := c, columnCount := 1,
               groupId := st.currentGroupId } ∧
      (layoutStep st segment).freeColumns =
        (releaseFinished segment.segmentStartMinutes st.active
          st.freeColumns).2.dropLast ∧
      (layoutStep st segment).nextColumnIndex = st.nextColumnIndex) ∧
    (layoutSegmentsWithColumns
        [demoSeg "a" 540 600, demoSeg "b" 570 630, demoSeg "c" 600 660]).map
        (fun s => (s.columnIndex, s.columnCount)) =
      [(0, 2), (1, 2), (0, 2)] := by
  refine ⟨?_, by decide⟩
  rw [layoutStep_pop_eq st segment c hne hc]
  refine ⟨?_, rfl, rfl⟩
  simp

theorem layoutStep_column_choice_witness :
    (releaseFinished (demoSeg "x" 50 60).segmentStartMinutes c2State.active
      c2State.freeColumns).1 ≠ [] ∧
    (releaseFinished (demoSeg "x" 50 60).segmentStartMinutes c2State.active
      c2State.freeColumns).2.getLast? = some 1 ∧
    (((layoutStep c2State (demoSeg "x" 50 60)).active.getLast? =
        some { seg := demoSeg "x" 50 60, columnIndex := 1, columnCount := 1,
               groupId := c2State.currentGroupId } ∧
      (layoutStep c2State (demoSeg "x" 50 60)).freeColumns =
        (releaseFinished (demoSeg "x" 50 60).segmentStartMinutes c2State.active
          c2State.freeColumns).2.dropLast ∧
      (layoutStep c2State (demoSeg "x" 50 60)).nextColumnIndex =
        c2State.nextColumnIndex) ∧
    (layoutSegmentsWithColumns
        [demoSeg "a" 540 600, demoSeg "b" 570 630, demoSeg "c" 600 660]).map
        (fun s => (s.columnIndex, s.columnCount)) =
      [(0, 2), (1, 2), (0, 2)]) :=
  ⟨by decide, by decide,
    layoutStep_column_choice c2State (demoSeg "x" 50 60) (by decide) 1
      (by decide)⟩

theorem layoutSegmentsWithColumns_correct_witness :
    LayoutCorrect [demoSeg "a" 540 600, demoSeg "b" 570 630,
        demoSeg "c" 600 660]
      (layoutSegmentsWithColumns [demoSeg "a" 540 600, demoSeg "b" 570 630,
        demoSeg "c" 600 660]) :=
  layoutSegmentsWithColumns_correct _ (by decide) (by decide)


end Travelio
